import Mathlib

/-!
# Query construction of the New Relic metrics adapter

A shallow embedding of `internal/provider/newrelic/query.go` and a verification of its
specification.

Modelling conventions.

* A Go `string` is a Lean `String`: a finite sequence of Unicode code points, i.e. a valid
  UTF-8 text.  `fmt.Sprintf` with only `%s` verbs is string concatenation.
* The Go standard library and the Kubernetes `labels` / `selection` packages are not part of
  the repository.  The pieces of them the code calls are written out next to the code, or
  taken as a parameter where their behaviour is a large table (`unicode.ToLower` above
  ASCII) or a numeric algorithm (`strconv.ParseFloat`).
* An index out of range (a Go run-time panic) is the result `none`.
-/

namespace NewRelic

/-! ## Standard library: `strings` and `unicode` -/

/-- Go `unicode.ToLower`: ASCII runes are handled by the range test on `A..Z`; for every other
rune the result comes from the Unicode case tables, the parameter `caseTable`. -/
def unicodeToLower (caseTable : Char → Char) (r : Char) : Char :=
  if r.toNat ≤ 0x7F then
    if 'A'.toNat ≤ r.toNat ∧ r.toNat ≤ 'Z'.toNat then Char.ofNat (r.toNat + ('a'.toNat - 'A'.toNat))
    else r
  else caseTable r

/-- Go `strings.ToLower`: every rune of the text mapped through `unicode.ToLower`. -/
def stringsToLower (caseTable : Char → Char) (s : String) : String :=
  ⟨s.data.map (unicodeToLower caseTable)⟩

/-- Go `strings.HasPrefix` on the runes of the two texts (first argument: the prefix sought). -/
def startsWith : List Char → List Char → Bool
  | [], _ => true
  | _ :: _, [] => false
  | p :: ps, c :: cs => p == c && startsWith ps cs

/-- Search of `substr` at every offset of `s`, left to right. -/
def containsAt (substr : List Char) : List Char → Bool
  | [] => startsWith substr []
  | c :: cs => startsWith substr (c :: cs) || containsAt substr cs

/-- Go `strings.Contains`. -/
def stringsContains (s substr : String) : Bool :=
  containsAt substr.data s.data

/-! ## Standard library: `strconv.ParseFloat`

The program only asks whether `strconv.ParseFloat(v, 64)` returns an error.  The functions of
this section follow `strconv/atof.go` for that question: `special`, `readFloat` and
`underscoreOK` are transcribed; the conversion proper (`atof64exact`, `eiselLemire64`,
`decimal.floatBits`, `atofHex`) is replaced by what it computes, the range test
"the literal rounds, to nearest and ties to even, to an infinity".  `readFloat` is given the
whole mantissa instead of its first 19 digits and a truncation flag.  Go's slow path keeps at
most 800 mantissa digits; the range test here is exact, and the two agree on every text whose
mantissa has at most 800 significant digits.  The clause builders below take the test as a
parameter, so their theorems do not depend on this section; it provides the instance at which
they are evaluated.
-/

namespace strconv

/-- Go `lower(c)`, that is `c | ('x' - 'X')`. -/
def lower (c : Char) : Nat := c.toNat ||| 0x20

/-- Go `commonPrefixLenIgnoreCase`; `pfx` is lower-case. -/
def commonPrefixLenIgnoreCase : List Char → List Char → Nat
  | _, [] => 0
  | [], _ :: _ => 0
  | c :: s, p :: pfx =>
    let c1 := if 'A'.toNat ≤ c.toNat ∧ c.toNat ≤ 'Z'.toNat then c.toNat + 32 else c.toNat
    if c1 ≠ p.toNat then 0 else commonPrefixLenIgnoreCase s pfx + 1

/-- Go `special`: the length of the prefix of `s` that spells a signed infinity or a NaN, if
there is one. -/
def special (s : List Char) : Option Nat :=
  let infinity (nsign : Nat) (t : List Char) : Option Nat :=
    let n := commonPrefixLenIgnoreCase t "infinity".data
    let n := if 3 < n ∧ n < 8 then 3 else n
    if n = 3 ∨ n = 8 then some (nsign + n) else none
  match s with
  | [] => none
  | c :: t =>
    if c = '+' ∨ c = '-' then infinity 1 t
    else if c = 'i' ∨ c = 'I' then infinity 0 (c :: t)
    else if c = 'n' ∨ c = 'N' then
      if commonPrefixLenIgnoreCase (c :: t) "nan".data = 3 then some 3 else none
    else none

/-- The variables of the digit loop of `readFloat`; `mantissa` holds all significant digits. -/
structure Mantissa where
  underscores : Bool
  sawdot : Bool
  sawdigits : Bool
  nd : Nat
  dp : Int
  mantissa : Nat

/-- The test `'0' <= c && c <= '9'`. -/
def isDigit (c : Char) : Bool := decide ('0'.toNat ≤ c.toNat) && decide (c.toNat ≤ '9'.toNat)

/-- The test `'a' <= lower(c) && lower(c) <= 'f'`. -/
def isHexLetter (c : Char) : Bool := decide ('a'.toNat ≤ lower c) && decide (lower c ≤ 'f'.toNat)

/-- The digit loop of `readFloat`: the final variables and the unread rest of the text. -/
def readDigits (base : Nat) : List Char → Mantissa → Mantissa × List Char
  | [], m => (m, [])
  | c :: cs, m =>
    if c = '_' then readDigits base cs { m with underscores := true }
    else if c = '.' then
      if m.sawdot then (m, c :: cs)
      else readDigits base cs { m with sawdot := true, dp := m.nd }
    else if isDigit c then
      if c = '0' ∧ m.nd = 0 then
        readDigits base cs { m with sawdigits := true, dp := m.dp - 1 }
      else
        readDigits base cs { m with
          sawdigits := true, nd := m.nd + 1,
          mantissa := m.mantissa * base + (c.toNat - '0'.toNat) }
    else if base = 16 ∧ isHexLetter c then
      readDigits base cs { m with
        sawdigits := true, nd := m.nd + 1,
        mantissa := m.mantissa * 16 + (lower c - 'a'.toNat + 10) }
    else (m, c :: cs)

/-- The exponent loop of `readFloat`: the exponent read (it stops growing at 10000), whether
an underscore was seen, and the unread rest. -/
def readExponent : List Char → Nat → Bool → Nat × Bool × List Char
  | [], e, u => (e, u, [])
  | c :: cs, e, u =>
    if c = '_' then readExponent cs e true
    else if isDigit c then
      readExponent cs (if e < 10000 then e * 10 + (c.toNat - '0'.toNat) else e) u
    else (e, u, c :: cs)

/-- The digit and underscore loop of `underscoreOK`; `saw` is the class of the last character. -/
def underscoreLoop (hex : Bool) : List Char → Char → Bool
  | [], saw => saw != '_'
  | c :: cs, saw =>
    if isDigit c || (hex && isHexLetter c) then underscoreLoop hex cs '0'
    else if c = '_' then
      if saw != '0' then false else underscoreLoop hex cs '_'
    else if saw = '_' then false
    else underscoreLoop hex cs '!'

/-- Go `underscoreOK`. -/
def underscoreOK (s : List Char) : Bool :=
  let s1 := match s with
    | c :: t => if c = '-' ∨ c = '+' then t else s
    | [] => s
  match s1 with
  | c0 :: c1 :: t =>
    if c0 = '0' ∧ (lower c1 = 'b'.toNat ∨ lower c1 = 'o'.toNat ∨ lower c1 = 'x'.toNat) then
      underscoreLoop (lower c1 = 'x'.toNat) t '0'
    else underscoreLoop false s1 '^'
  | _ => underscoreLoop false s1 '^'

/-- A literal read by `readFloat`: it denotes `mantissa * base ^ (- nd) * b ^ dp`, with
`base = 10`, `b = 10` for a decimal and `base = 16`, `b = 2` for a hexadecimal literal. -/
structure Literal where
  hex : Bool
  mantissa : Nat
  nd : Nat
  dp : Int

/-- Go `readFloat`: the literal at the start of `s` and the unread rest; `none` when the
function returns with `ok` false. -/
def readFloat (s : List Char) : Option (Literal × List Char) :=
  match s with
  | [] => none
  | c :: t =>
    let s1 := if c = '+' ∨ c = '-' then t else s
    let (hex, s2) : Bool × List Char := match s1 with
      | c0 :: c1 :: c2 :: r =>
        if c0 = '0' ∧ lower c1 = 'x'.toNat then (true, c2 :: r) else (false, s1)
      | _ => (false, s1)
    let base := if hex then 16 else 10
    let expChar := if hex then 'p' else 'e'
    let (m, s3) := readDigits base s2 ⟨false, false, false, 0, 0, 0⟩
    if !m.sawdigits then none
    else
      let dp : Int := if !m.sawdot then m.nd else m.dp
      let dp : Int := if hex then dp * 4 else dp
      let finish (dp : Int) (underscores : Bool) (rest : List Char) :
          Option (Literal × List Char) :=
        if underscores && !underscoreOK (s.take (s.length - rest.length)) then none
        else some (⟨hex, m.mantissa, m.nd, dp⟩, rest)
      match s3 with
      | x :: s4 =>
        if lower x = expChar.toNat then
          match s4 with
          | [] => none
          | y :: s5 =>
            let (esign, s6) : Int × List Char :=
              if y = '+' then (1, s5) else if y = '-' then (-1, s5) else (1, s4)
            match s6 with
            | [] => none
            | z :: _ =>
              if !isDigit z then none
              else
                let (e, u, s7) := readExponent s6 0 m.underscores
                finish (dp + e * esign) u s7
        else if hex then none
        else finish dp m.underscores s3
      | [] => if hex then none else finish dp m.underscores s3

/-- Go `floatInfo`. -/
structure floatInfo where
  mantbits : Nat
  expbits : Nat

def float32info : floatInfo := ⟨23, 8⟩
def float64info : floatInfo := ⟨52, 11⟩

/-- The least magnitude that rounds to an infinity: the largest finite value plus half a unit
in its last place (`1<<1024 - 1<<970` for `float64`). -/
def overflowThreshold (flt : floatInfo) : Nat :=
  let maxExp := 1 <<< (flt.expbits - 1)
  (1 <<< maxExp) - (1 <<< (maxExp - flt.mantbits - 2))

/-- Whether the conversion of the literal reports `ErrRange`. -/
def overflows (flt : floatInfo) (l : Literal) : Bool :=
  let b : Nat := if l.hex then 2 else 10
  let k : Int := if l.hex then l.dp - 4 * (l.nd : Int) else l.dp - (l.nd : Int)
  if 0 ≤ k then decide (overflowThreshold flt ≤ l.mantissa * b ^ k.toNat)
  else decide (overflowThreshold flt * b ^ (-k).toNat ≤ l.mantissa)

/-- Whether `strconv.ParseFloat(s, bitSize)` returns a nil error: the whole text is a special
value, or a literal that does not overflow. -/
def ParseFloatOk (s : String) (bitSize : Nat) : Bool :=
  let flt := if bitSize = 32 then float32info else float64info
  match special s.data with
  | some n => n == s.data.length
  | none =>
    match readFloat s.data with
    | none => false
    | some (l, rest) => rest.isEmpty && !overflows flt l

end strconv

/-! ## The query type and its augmentation operations -/

/-- Go `type Query string`. -/
abbrev Query := String

/-- The constant `limitClause`. -/
def limitClause : String := " limit "

/-- The constant `bitSize`. -/
def bitSize : Nat := 64

/-- The method `Query.addLimit`. -/
def addLimit (caseTable : Char → Char) (q : Query) : Query :=
  if stringsContains (stringsToLower caseTable q) limitClause then q
  else q ++ " limit 1"

/-- The method `Query.addClusterFilter`. -/
def addClusterFilter (q : Query) (clusterName : String) (addClusterFilter : Bool) : Query :=
  if !addClusterFilter then q
  else q ++ " where clusterName='" ++ clusterName ++ "'"

/-! ## Kubernetes `selection` and `labels` -/

namespace selection

/-- Go `type Operator string` of `k8s.io/apimachinery/pkg/selection`. -/
abbrev Operator := String

def DoesNotExist : Operator := "!"
def Equals : Operator := "="
def DoubleEquals : Operator := "=="
def In : Operator := "in"
def NotEquals : Operator := "!="
def NotIn : Operator := "notin"
def Exists : Operator := "exists"
def GreaterThan : Operator := "gt"
def LessThan : Operator := "lt"

/-- The nine operator constants the package declares. -/
def known : List Operator :=
  [DoesNotExist, Equals, DoubleEquals, In, NotEquals, NotIn, Exists, GreaterThan, LessThan]

end selection

namespace sets

/-- The order `a < b` of Go strings: lexicographic on the UTF-8 bytes, which on valid UTF-8
texts is the lexicographic order on the code points. -/
def stringLess : List Char → List Char → Bool
  | _, [] => false
  | [], _ :: _ => true
  | a :: as, b :: bs => decide (a.toNat < b.toNat) || (a == b && stringLess as bs)

/-- Insertion of a member into the sorted list of the members of a string set; a member
already present is not inserted again (the method `Insert` of `sets.String`). -/
def insert (v : String) : List String → List String
  | [] => [v]
  | x :: xs =>
    if v = x then x :: xs
    else if stringLess v.data x.data then v :: x :: xs
    else x :: insert v xs

/-- The method `List` of `sets.String`, applied to the set holding the given members: the
members without repetition, sorted increasingly (`sort.Strings`). -/
def sortedList (members : List String) : List String :=
  members.foldl (fun set v => insert v set) []

end sets

namespace labels

/-- The struct `labels.Requirement`. -/
structure Requirement where
  key : String
  operator : selection.Operator
  strValues : List String
  deriving DecidableEq, Repr

/-- The method `Requirement.Key`. -/
def Requirement.Key (r : Requirement) : String := r.key

/-- The method `Requirement.Operator`. -/
def Requirement.Operator (r : Requirement) : selection.Operator := r.operator

/-- The composition `r.Values().List()`: `Values` collects `strValues` into a string set and
`List` returns the members of the set sorted. -/
def Requirement.ValuesList (r : Requirement) : List String :=
  sets.sortedList r.strValues

/-- A non-nil `labels.Selector`.  The package has two implementations of the interface: the
list of requirements `internalSelector` and the selector that matches nothing. -/
inductive Selector where
  | internalSelector (requirements : List Requirement)
  | nothingSelector
  deriving DecidableEq, Repr

/-- The method `Selector.Requirements`, with its second result `selectable`. -/
def Selector.Requirements : Selector → List Requirement × Bool
  | .internalSelector requirements => (requirements, true)
  | .nothingSelector => ([], false)

end labels

/-! ## Clause builders -/

/-- The function `transformOperator`: a lookup in the map literal, a missing key giving the
zero value of `string`. -/
def transformOperator (op : selection.Operator) : String :=
  let m : List (selection.Operator × String) := [
    (selection.NotEquals, "!="),
    (selection.Equals, "="),
    (selection.GreaterThan, ">"),
    (selection.DoubleEquals, "="),
    (selection.LessThan, ","),
    (selection.Exists, "IS NOT NULL"),
    (selection.DoesNotExist, "IS NULL"),
    (selection.In, "IN"),
    (selection.NotIn, "NOT IN")]
  (m.lookup op).getD ""

/-- The function `buildSimpleCondition`.  `parseFloatOk v n` stands for
`strconv.ParseFloat(v, n)` returning a nil error. -/
def buildSimpleCondition (parseFloatOk : String → Nat → Bool) (whereClause key : String)
    (operator : selection.Operator) (value : String) : String :=
  if !parseFloatOk value bitSize then
    whereClause ++ " " ++ key ++ " " ++ transformOperator operator ++ " '" ++ value ++ "'"
  else
    whereClause ++ " " ++ key ++ " " ++ transformOperator operator ++ " " ++ value

/-- The loop of `buildINClause` from position `index` on; `len` is `len(values)`. -/
def inClauseLoop (parseFloatOk : String → Nat → Bool) (len : Nat) :
    Nat → List String → String → String
  | _, [], inClause => inClause
  | index, v :: rest, inClause =>
    let inClause1 :=
      if !parseFloatOk v bitSize then inClause ++ "'" ++ v ++ "'" else inClause ++ v
    let inClause2 := if index != len - 1 then inClause1 ++ ", " else inClause1
    inClauseLoop parseFloatOk len (index + 1) rest inClause2

/-- The function `buildINClause`. -/
def buildINClause (parseFloatOk : String → Nat → Bool) (whereClause key : String)
    (operator : selection.Operator) (values : List String) : String :=
  let inClause := inClauseLoop parseFloatOk values.length 0 values "("
  let inClause := inClause ++ ")"
  whereClause ++ " " ++ key ++ " " ++ transformOperator operator ++ " " ++ inClause

/-- The `switch` on the operator inside the loop of `addMatchFilter`; `none` is the panic of
`List()[0]` on an empty list. -/
def matchSwitch (parseFloatOk : String → Nat → Bool) (whereClause : String)
    (r : labels.Requirement) : Option String :=
  let key := r.Key
  if r.Operator = selection.Equals ∨ r.Operator = selection.DoubleEquals ∨
      r.Operator = selection.GreaterThan ∨ r.Operator = selection.LessThan ∨
      r.Operator = selection.NotEquals then
    match r.ValuesList[0]? with
    | none => none
    | some v => some (buildSimpleCondition parseFloatOk whereClause key r.Operator v)
  else if r.Operator = selection.In ∨ r.Operator = selection.NotIn then
    some (buildINClause parseFloatOk whereClause key r.Operator r.ValuesList)
  else if r.Operator = selection.DoesNotExist ∨ r.Operator = selection.Exists then
    some (whereClause ++ " " ++ key ++ " " ++ transformOperator r.Operator)
  else some whereClause

/-- The loop of `addMatchFilter` from position `index` on; `len` is `len(requirements)`. -/
def matchLoop (parseFloatOk : String → Nat → Bool) (len : Nat) :
    Nat → List labels.Requirement → String → Option String
  | _, [], whereClause => some whereClause
  | index, r :: rest, whereClause =>
    match matchSwitch parseFloatOk whereClause r with
    | none => none
    | some whereClause1 =>
      let whereClause2 := if index != len - 1 then whereClause1 ++ " and" else whereClause1
      matchLoop parseFloatOk len (index + 1) rest whereClause2

/-- The method `Query.addMatchFilter`; the argument `none` is the nil selector. -/
def addMatchFilter (parseFloatOk : String → Nat → Bool) (q : Query)
    (sel : Option labels.Selector) : Option Query :=
  match sel with
  | none => some q
  | some s =>
    let (requirements, ok) := s.Requirements
    if !ok || requirements.length == 0 then some q
    else
      match matchLoop parseFloatOk requirements.length 0 requirements "where" with
      | none => none
      | some whereClause => some (q ++ " " ++ whereClause)

/-! ## Chains of augmentation calls -/

/-- One augmentation call on a query, with its arguments. -/
inductive Augmentation where
  | limit
  | clusterFilter (clusterName : String) (enabled : Bool)
  | matchFilter (sel : Option labels.Selector)

/-- A chain of method calls `q.op1(..).op2(..)...`, applied left to right; a panic in one call
ends the chain. -/
def applyChain (caseTable : Char → Char) (parseFloatOk : String → Nat → Bool) :
    List Augmentation → Query → Option Query
  | [], q => some q
  | .limit :: rest, q => applyChain caseTable parseFloatOk rest (addLimit caseTable q)
  | .clusterFilter c enabled :: rest, q =>
    applyChain caseTable parseFloatOk rest (addClusterFilter q c enabled)
  | .matchFilter sel :: rest, q =>
    match addMatchFilter parseFloatOk q sel with
    | none => none
    | some q1 => applyChain caseTable parseFloatOk rest q1

/-- The order of calls the specification names: the base query, then `addLimit`, then
`addClusterFilter`, then `addMatchFilter`. -/
def pipeline (caseTable : Char → Char) (parseFloatOk : String → Nat → Bool) (base : Query)
    (clusterName : String) (enabled : Bool) (sel : Option labels.Selector) : Option Query :=
  addMatchFilter parseFloatOk (addClusterFilter (addLimit caseTable base) clusterName enabled) sel

/-- The shape `<base> [limit 1] [where <cond> [and <cond>]...]` the specification asks of
the final text: the base, then nothing or ` limit 1`, then nothing or one fragment that
starts with the keyword `where` and joins with ` and` conditions in which the keyword does
not occur again. -/
def singleStatement (base out : String) : Prop :=
  ∃ (lim : String) (conds : List String),
    (lim = "" ∨ lim = " limit 1")
      ∧ (∀ cond ∈ conds, ¬ "where".data <:+: cond.data)
      ∧ out = base ++ lim ++ (if conds = [] then "" else " where" ++ " and".intercalate conds)

/-! ## What the rendering of a selector keeps -/

/-- The single quote character. -/
def quote : Char := Char.ofNat 39

/-- The data model of the specification for one requirement: a non-empty key, one of the nine
operators, exactly one value for a one-value comparison and one or more for `In` / `NotIn`. -/
abbrev dataModel (r : labels.Requirement) : Prop :=
  r.key ≠ ""
    ∧ r.operator ∈ selection.known
    ∧ (r.operator ∈ [selection.Equals, selection.DoubleEquals, selection.NotEquals,
        selection.GreaterThan, selection.LessThan] → r.strValues.length = 1)
    ∧ (r.operator ∈ [selection.In, selection.NotIn] → r.strValues ≠ [])

/-- Keys and values as label syntax has them: no space in the key, no space and no single
quote in a value. -/
abbrev labelSyntax (r : labels.Requirement) : Prop :=
  (∀ ch ∈ r.key.data, ch ≠ ' ')
    ∧ ∀ v ∈ r.strValues, ∀ ch ∈ v.data, ch ≠ ' ' ∧ ch ≠ quote

/-- What the clause of a requirement shows of it: the key, the token of the operator (one
token for both spellings of equality) and the sorted set of the values (no value for the
existence operators, which render none). -/
def canonical (r : labels.Requirement) : String × String × List String :=
  (r.key, transformOperator r.operator,
    if r.operator = selection.Exists ∨ r.operator = selection.DoesNotExist then []
    else r.ValuesList)

/-- The literal of a value: bare when it parses as a float, between single quotes when not. -/
def renderedValue (parseFloatOk : String → Nat → Bool) (v : String) : String :=
  if parseFloatOk v 64 = true then v else "'" ++ v ++ "'"

/-- The text of a list of words, each preceded by one space. -/
def spaced : List (List Char) → List Char
  | [] => []
  | w :: ws => ' ' :: (w ++ spaced ws)

/-- The words of a parenthesised list after its opening parenthesis: each literal followed by
a comma, the last one by the closing parenthesis. -/
def closeWords : List String → List (List Char)
  | [] => [[')']]
  | [l] => [l.data ++ [')']]
  | l :: l2 :: ls => (l.data ++ [',']) :: closeWords (l2 :: ls)

/-- The words of a parenthesised list of literals. -/
def listWords (lits : List String) : List (List Char) :=
  match closeWords lits with
  | [] => []
  | w :: ws => ('(' :: w) :: ws

/-- The words of an operator token. -/
def opWords (token : String) : List (List Char) :=
  if token = "IS NOT NULL" then ["IS".data, "NOT".data, "NULL".data]
  else if token = "IS NULL" then ["IS".data, "NULL".data]
  else if token = "NOT IN" then ["NOT".data, "IN".data]
  else [token.data]

/-- The words of the clause that shows the given key, operator token and values. -/
def clauseWords (parseFloatOk : String → Nat → Bool) (c : String × String × List String) :
    List (List Char) :=
  c.1.data :: (opWords c.2.1 ++
    (if c.2.1 = "IN" ∨ c.2.1 = "NOT IN" then listWords (c.2.2.map (renderedValue parseFloatOk))
     else (c.2.2.map (renderedValue parseFloatOk)).map String.data))

/-- The words of the clauses of a requirement list, with the word `and` between consecutive
clauses. -/
def joinedWords (parseFloatOk : String → Nat → Bool) :
    List (String × String × List String) → List (List Char)
  | [] => []
  | [c] => clauseWords parseFloatOk c
  | c :: c2 :: cs =>
    clauseWords parseFloatOk c ++ "and".data :: joinedWords parseFloatOk (c2 :: cs)

def validTriple (c : String × String × List String) : Prop :=
  c.2.1 ∈ ["=", "!=", ">", ",", "IS NOT NULL", "IS NULL", "IN", "NOT IN"]
    ∧ (c.2.1 = "IN" ∨ c.2.1 = "NOT IN" → c.2.2 ≠ [])
    ∧ (c.2.1 = "IS NOT NULL" ∨ c.2.1 = "IS NULL" → c.2.2 = [])
    ∧ (c.2.1 = "=" ∨ c.2.1 = "!=" ∨ c.2.1 = ">" ∨ c.2.1 = "," → c.2.2.length = 1)
    ∧ ∀ v ∈ c.2.2, ∀ ch ∈ v.data, ch ≠ quote

/-! ## Lemmas on the library functions -/

theorem startsWith_iff (p s : List Char) : startsWith p s = true ↔ p <+: s := by
  induction p generalizing s with
  | nil => simp [startsWith]
  | cons a p ih =>
    cases s with
    | nil => simp [startsWith]
    | cons b s => simp [startsWith, ih, List.cons_prefix_cons]

theorem containsAt_iff (sub s : List Char) : containsAt sub s = true ↔ sub <:+: s := by
  induction s with
  | nil =>
    simp only [containsAt, startsWith_iff, List.prefix_nil, List.infix_nil]
  | cons c s ih =>
    simp only [containsAt, Bool.or_eq_true, startsWith_iff, ih, List.infix_cons_iff]

theorem stringsContains_iff (s substr : String) :
    stringsContains s substr = true ↔ substr.data <:+: s.data := by
  simp only [stringsContains, containsAt_iff]

theorem stringsToLower_append (caseTable : Char → Char) (s t : String) :
    stringsToLower caseTable (s ++ t) = stringsToLower caseTable s ++ stringsToLower caseTable t := by
  apply String.ext
  simp [stringsToLower]

/-- The text ` limit 1` has no upper-case letter. -/
theorem stringsToLower_limit_one (caseTable : Char → Char) :
    stringsToLower caseTable " limit 1" = " limit 1" := by
  rfl

/-- A space is its own lower case. -/
theorem stringsToLower_space (caseTable : Char → Char) :
    stringsToLower caseTable " " = " " := by
  rfl

/-! ## Lemmas on joining texts with a separator -/

theorem intercalate_go_append (sep x : String) (l : List String) (acc : String) :
    String.intercalate.go (x ++ acc) sep l = x ++ String.intercalate.go acc sep l := by
  induction l generalizing acc with
  | nil => rfl
  | cons a l ih =>
    simp only [String.intercalate.go]
    rw [String.append_assoc x acc sep, String.append_assoc x (acc ++ sep) a, ih]

theorem intercalate_cons_cons (sep a b : String) (l : List String) :
    sep.intercalate (a :: b :: l) = a ++ sep ++ sep.intercalate (b :: l) := by
  show String.intercalate.go (a ++ sep ++ b) sep l = a ++ sep ++ String.intercalate.go b sep l
  have h := intercalate_go_append sep (a ++ sep) l b
  exact h

theorem intercalate_singleton (sep a : String) : sep.intercalate [a] = a := rfl

/-- The loop of `buildINClause`, started at a position `index` with `index + len(rest)`
equal to the length, appends the literals of the rest joined by `, `. -/
theorem inClauseLoop_eq (parseFloatOk : String → Nat → Bool) (len : Nat) (values : List String) :
    ∀ (index : Nat) (acc : String), index + values.length = len →
      inClauseLoop parseFloatOk len index values acc =
        acc ++ ", ".intercalate
          (values.map (fun v => if parseFloatOk v 64 = true then v else "'" ++ v ++ "'")) := by
  induction values with
  | nil =>
    intro index acc _
    simp [inClauseLoop, String.intercalate]
  | cons v rest ih =>
    intro index acc hlen
    have hlit : (if (!parseFloatOk v bitSize) = true then acc ++ "'" ++ v ++ "'" else acc ++ v)
        = acc ++ (if parseFloatOk v 64 = true then v else "'" ++ v ++ "'") := by
      unfold bitSize
      cases parseFloatOk v 64
      · simp [String.append_assoc]
      · simp
    cases rest with
    | nil =>
      have hidx : index = len - 1 := by simp at hlen; omega
      simp only [inClauseLoop, hlit, hidx, bne_self_eq_false, Bool.false_eq_true, if_false,
        List.map_cons, List.map_nil, intercalate_singleton]
    | cons v2 rest2 =>
      have hidx : (index != len - 1) = true := by
        simp only [List.length_cons] at hlen
        simp only [bne_iff_ne, ne_eq]
        omega
      have hstep := ih (index + 1)
        (acc ++ (if parseFloatOk v 64 = true then v else "'" ++ v ++ "'") ++ ", ")
        (by simp only [List.length_cons] at hlen ⊢; omega)
      rw [inClauseLoop]
      simp only [hlit, hidx, if_true]
      rw [hstep]
      simp only [List.map_cons, intercalate_cons_cons, String.append_assoc]

/-! ## Lemmas on the clause builders and the loop of `addMatchFilter` -/

theorem buildSimpleCondition_eq (parseFloatOk : String → Nat → Bool)
    (w k : String) (op : selection.Operator) (v : String) :
    buildSimpleCondition parseFloatOk w k op v =
      w ++ " " ++ k ++ " " ++ transformOperator op ++ " " ++
        (if parseFloatOk v 64 = true then v else "'" ++ v ++ "'") := by
  unfold buildSimpleCondition bitSize
  cases h : parseFloatOk v 64
  · simp only [Bool.not_false, if_true, Bool.false_eq_true, if_false]
    apply String.ext
    simp only [String.data_append, List.append_assoc]
    rfl
  · simp only [Bool.not_true, Bool.false_eq_true, if_false, if_true]

theorem buildSimpleCondition_acc (parseFloatOk : String → Nat → Bool)
    (w k : String) (op : selection.Operator) (v : String) :
    buildSimpleCondition parseFloatOk w k op v =
      w ++ buildSimpleCondition parseFloatOk "" k op v := by
  rw [buildSimpleCondition_eq, buildSimpleCondition_eq]
  simp only [String.append_assoc, String.empty_append]

theorem buildINClause_acc (parseFloatOk : String → Nat → Bool)
    (w k : String) (op : selection.Operator) (values : List String) :
    buildINClause parseFloatOk w k op values =
      w ++ buildINClause parseFloatOk "" k op values := by
  unfold buildINClause
  simp only [String.append_assoc, String.empty_append]

/-- The switch of `addMatchFilter` appends to the accumulated text what it appends to the
empty text. -/
theorem matchSwitch_acc (parseFloatOk : String → Nat → Bool) (w : String)
    (r : labels.Requirement) :
    matchSwitch parseFloatOk w r = (matchSwitch parseFloatOk "" r).map (fun c => w ++ c) := by
  unfold matchSwitch
  split_ifs with h1 h2 h3
  · cases r.ValuesList[0]? with
    | none => rfl
    | some v => simp only [Option.map_some', buildSimpleCondition_acc parseFloatOk w]
  · simp only [Option.map_some', buildINClause_acc parseFloatOk w]
  · simp only [Option.map_some', String.append_assoc, String.empty_append]
  · simp only [Option.map_some', String.append_empty]

theorem insert_ne_nil (v : String) (l : List String) : sets.insert v l ≠ [] := by
  cases l with
  | nil => simp [sets.insert]
  | cons x xs =>
    unfold sets.insert
    split_ifs <;> simp

theorem sortedList_ne_nil (members : List String) (h : members ≠ []) :
    sets.sortedList members ≠ [] := by
  have key : ∀ (l acc : List String), acc ≠ [] →
      l.foldl (fun set v => sets.insert v set) acc ≠ [] := by
    intro l
    induction l with
    | nil => intro acc hacc; exact hacc
    | cons x xs ih => intro acc _; exact ih _ (insert_ne_nil x acc)
  cases members with
  | nil => exact absurd rfl h
  | cons x xs => exact key xs _ (insert_ne_nil x [])

/-- The loop of `addMatchFilter`, started at a position `index` with `index + len(rest)`
equal to the length, appends the clauses of the rest joined by ` and`, when the switch
succeeds on each of them. -/
theorem matchLoop_eq (parseFloatOk : String → Nat → Bool) (len : Nat)
    (rs : List labels.Requirement) :
    ∀ (index : Nat) (w : String), index + rs.length = len →
      (∀ r ∈ rs, ∃ c, matchSwitch parseFloatOk "" r = some c) →
      matchLoop parseFloatOk len index rs w =
        some (w ++ " and".intercalate
          (rs.map (fun r => (matchSwitch parseFloatOk "" r).getD ""))) := by
  induction rs with
  | nil =>
    intro index w _ _
    simp [matchLoop, String.intercalate]
  | cons r rest ih =>
    intro index w hlen hok
    obtain ⟨c, hc⟩ := hok r (List.mem_cons_self r rest)
    have hrest : ∀ x ∈ rest, ∃ c, matchSwitch parseFloatOk "" x = some c :=
      fun x hx => hok x (List.mem_cons_of_mem r hx)
    have hsw : matchSwitch parseFloatOk w r = some (w ++ c) := by
      rw [matchSwitch_acc, hc]
      rfl
    cases rest with
    | nil =>
      have hidx : index = len - 1 := by simp at hlen; omega
      simp only [matchLoop, hsw, hidx, bne_self_eq_false, Bool.false_eq_true, if_false,
        List.map_cons, List.map_nil, intercalate_singleton, hc, Option.getD_some]
    | cons r2 rest2 =>
      have hidx : (index != len - 1) = true := by
        simp only [List.length_cons] at hlen
        simp only [bne_iff_ne, ne_eq]
        omega
      have hstep := ih (index + 1) (w ++ c ++ " and")
        (by simp only [List.length_cons] at hlen ⊢; omega) hrest
      rw [matchLoop]
      simp only [hsw, hidx, if_true]
      rw [hstep]
      simp only [List.map_cons, intercalate_cons_cons, String.append_assoc, hc,
        Option.getD_some]

/-- On a requirement with a known operator, and with a value when the operator compares with
one value, the switch succeeds and its clause is a space, the key, a space and a rest. -/
theorem matchSwitch_known (parseFloatOk : String → Nat → Bool) (r : labels.Requirement)
    (hknown : r.operator ∈ selection.known)
    (hvalue : r.operator ∈ [selection.Equals, selection.DoubleEquals, selection.NotEquals,
      selection.GreaterThan, selection.LessThan] → r.strValues ≠ []) :
    ∃ t, matchSwitch parseFloatOk "" r = some (" " ++ r.key ++ " " ++ t) := by
  obtain ⟨k, op, vs⟩ := r
  have hin : ∀ operator : selection.Operator, ∃ t,
      buildINClause parseFloatOk "" k operator (sets.sortedList vs) = " " ++ k ++ " " ++ t := by
    intro operator
    refine ⟨transformOperator operator ++ " " ++
      (inClauseLoop parseFloatOk (sets.sortedList vs).length 0 (sets.sortedList vs) "(" ++ ")"), ?_⟩
    unfold buildINClause
    simp only [String.append_assoc, String.empty_append]
  have hsimple : ∀ operator : selection.Operator, vs ≠ [] → ∃ t,
      (match (sets.sortedList vs)[0]? with
        | none => none
        | some v => some (buildSimpleCondition parseFloatOk "" k operator v))
        = some (" " ++ k ++ " " ++ t) := by
    intro operator hvs
    have hne := sortedList_ne_nil vs hvs
    cases hl : sets.sortedList vs with
    | nil => exact absurd hl hne
    | cons v rest =>
      refine ⟨transformOperator operator ++ " " ++
        (if parseFloatOk v 64 = true then v else "'" ++ v ++ "'"), ?_⟩
      simp only [List.getElem?_cons_zero, buildSimpleCondition_eq, String.append_assoc,
        String.empty_append]
  simp only [selection.known, List.mem_cons, List.mem_singleton, List.not_mem_nil,
    or_false] at hknown hvalue
  unfold matchSwitch
  simp only [labels.Requirement.Key, labels.Requirement.Operator,
    labels.Requirement.ValuesList]
  rcases hknown with h | h | h | h | h | h | h | h | h <;> subst h
  · rw [if_neg (by decide), if_neg (by decide), if_pos (by decide)]
    exact ⟨transformOperator selection.DoesNotExist,
      by simp only [String.append_assoc, String.empty_append]⟩
  · rw [if_pos (by decide)]
    exact hsimple _ (hvalue (by decide))
  · rw [if_pos (by decide)]
    exact hsimple _ (hvalue (by decide))
  · rw [if_neg (by decide), if_pos (by decide)]
    obtain ⟨t, ht⟩ := hin selection.In
    exact ⟨t, by rw [ht]⟩
  · rw [if_pos (by decide)]
    exact hsimple _ (hvalue (by decide))
  · rw [if_neg (by decide), if_pos (by decide)]
    obtain ⟨t, ht⟩ := hin selection.NotIn
    exact ⟨t, by rw [ht]⟩
  · rw [if_neg (by decide), if_neg (by decide), if_pos (by decide)]
    exact ⟨transformOperator selection.Exists,
      by simp only [String.append_assoc, String.empty_append]⟩
  · rw [if_pos (by decide)]
    exact hsimple _ (hvalue (by decide))
  · rw [if_pos (by decide)]
    exact hsimple _ (hvalue (by decide))

/-- The switch leaves the accumulated text as it is on an operator that is none of the nine
known kinds. -/
theorem matchSwitch_unknown (parseFloatOk : String → Nat → Bool) (w : String)
    (r : labels.Requirement) (h : r.operator ∉ selection.known) :
    matchSwitch parseFloatOk w r = some w := by
  simp only [selection.known, List.mem_cons, List.mem_singleton, List.not_mem_nil, or_false,
    not_or] at h
  obtain ⟨h1, h2, h3, h4, h5, h6, h7, h8, h9⟩ := h
  unfold matchSwitch
  simp only [labels.Requirement.Operator]
  rw [if_neg (by simp only [h2, h3, h5, h8, h9, or_self, not_false_eq_true]),
    if_neg (by simp only [h4, h6, or_self, not_false_eq_true]),
    if_neg (by simp only [h1, h7, or_self, not_false_eq_true])]

/-- The switch panics exactly on a one-value comparison without a value. -/
theorem matchSwitch_eq_none_iff (parseFloatOk : String → Nat → Bool) (w : String)
    (r : labels.Requirement) :
    matchSwitch parseFloatOk w r = none ↔
      (r.operator ∈ [selection.Equals, selection.DoubleEquals, selection.NotEquals,
        selection.GreaterThan, selection.LessThan] ∧ r.strValues = []) := by
  have hmem : r.operator ∈ [selection.Equals, selection.DoubleEquals, selection.NotEquals,
        selection.GreaterThan, selection.LessThan] ↔
      (r.Operator = selection.Equals ∨ r.Operator = selection.DoubleEquals ∨
        r.Operator = selection.GreaterThan ∨ r.Operator = selection.LessThan ∨
        r.Operator = selection.NotEquals) := by
    simp only [List.mem_cons, List.mem_singleton, List.not_mem_nil, or_false,
      labels.Requirement.Operator]
    tauto
  rw [hmem]
  unfold matchSwitch
  split_ifs with h1 h2 h3
  · by_cases hv : r.strValues = []
    · have : r.ValuesList = [] := by
        unfold labels.Requirement.ValuesList
        rw [hv]
        rfl
      simp only [this, hv, List.getElem?_nil, h1, and_self]
    · have hne := sortedList_ne_nil r.strValues hv
      cases hl : r.ValuesList with
      | nil => exact absurd hl hne
      | cons v rest => simp only [List.getElem?_cons_zero, hv, and_false, reduceCtorEq]
  · simp only [h1, false_and, reduceCtorEq]
  · simp only [h1, false_and, reduceCtorEq]
  · simp only [h1, false_and, reduceCtorEq]

/-- The loop panics exactly when one of the requirements makes the switch panic. -/
theorem matchLoop_eq_none_iff (parseFloatOk : String → Nat → Bool) (len : Nat)
    (rs : List labels.Requirement) :
    ∀ (index : Nat) (w : String),
      matchLoop parseFloatOk len index rs w = none ↔
        ∃ r ∈ rs, r.operator ∈ [selection.Equals, selection.DoubleEquals, selection.NotEquals,
          selection.GreaterThan, selection.LessThan] ∧ r.strValues = [] := by
  induction rs with
  | nil =>
    intro index w
    simp only [matchLoop, List.not_mem_nil, false_and, exists_false, reduceCtorEq]
  | cons r rest ih =>
    intro index w
    rw [matchLoop]
    cases hsw : matchSwitch parseFloatOk w r with
    | none =>
      have hr := (matchSwitch_eq_none_iff parseFloatOk w r).1 hsw
      simp only [true_iff]
      exact ⟨r, List.mem_cons_self r rest, hr⟩
    | some w1 =>
      have hr : ¬ (r.operator ∈ [selection.Equals, selection.DoubleEquals, selection.NotEquals,
          selection.GreaterThan, selection.LessThan] ∧ r.strValues = []) := by
        intro h
        rw [(matchSwitch_eq_none_iff parseFloatOk w r).2 h] at hsw
        exact nomatch hsw
      simp only [ih]
      constructor
      · rintro ⟨x, hx, hbad⟩
        exact ⟨x, List.mem_cons_of_mem r hx, hbad⟩
      · rintro ⟨x, hx, hbad⟩
        rcases List.mem_cons.1 hx with rfl | hx
        · exact absurd hbad hr
        · exact ⟨x, hx, hbad⟩

/-- What the switch returns starts with the accumulated text. -/
theorem matchSwitch_extends (parseFloatOk : String → Nat → Bool) (w c : String)
    (r : labels.Requirement) (h : matchSwitch parseFloatOk w r = some c) :
    w.data <+: c.data := by
  rw [matchSwitch_acc] at h
  cases h0 : matchSwitch parseFloatOk "" r with
  | none => rw [h0] at h; exact nomatch h
  | some c0 =>
    rw [h0] at h
    simp only [Option.map_some', Option.some.injEq] at h
    rw [← h]
    exact ⟨c0.data, rfl⟩

/-- What the loop returns starts with the accumulated text. -/
theorem matchLoop_extends (parseFloatOk : String → Nat → Bool) (len : Nat)
    (rs : List labels.Requirement) :
    ∀ (index : Nat) (w out : String),
      matchLoop parseFloatOk len index rs w = some out → w.data <+: out.data := by
  induction rs with
  | nil =>
    intro index w out h
    simp only [matchLoop, Option.some.injEq] at h
    rw [h]
  | cons r rest ih =>
    intro index w out h
    rw [matchLoop] at h
    cases hsw : matchSwitch parseFloatOk w r with
    | none => rw [hsw] at h; exact nomatch h
    | some w1 =>
      rw [hsw] at h
      have h1 := matchSwitch_extends parseFloatOk w w1 r hsw
      have h2 := ih _ _ _ h
      refine h1.trans (List.IsPrefix.trans ?_ h2)
      split_ifs
      · exact ⟨" and".data, rfl⟩
      · exact List.prefix_refl _

/-- What `addMatchFilter` returns starts with the query. -/
theorem addMatchFilter_extends (parseFloatOk : String → Nat → Bool) (q out : Query)
    (sel : Option labels.Selector) (h : addMatchFilter parseFloatOk q sel = some out) :
    q.data <+: out.data := by
  unfold addMatchFilter at h
  cases sel with
  | none =>
    simp only [Option.some.injEq] at h
    rw [h]
  | some s =>
    simp only at h
    split_ifs at h with h1
    · simp only [Option.some.injEq] at h
      rw [h]
    · cases hl : matchLoop parseFloatOk s.Requirements.1.length 0 s.Requirements.1 "where" with
      | none => rw [hl] at h; exact nomatch h
      | some w =>
        rw [hl] at h
        simp only [Option.some.injEq] at h
        rw [← h]
        exact ⟨(" " ++ w).data, by simp only [String.data_append, List.append_assoc]⟩

theorem addLimit_extends (caseTable : Char → Char) (q : Query) :
    q.data <+: (addLimit caseTable q).data := by
  unfold addLimit
  split_ifs
  · exact List.prefix_refl _
  · exact ⟨" limit 1".data, rfl⟩

theorem addClusterFilter_extends (q : Query) (c : String) (enabled : Bool) :
    q.data <+: (addClusterFilter q c enabled).data := by
  unfold addClusterFilter
  split_ifs
  · exact List.prefix_refl _
  · exact ⟨(" where clusterName='" ++ c ++ "'").data,
      by simp only [String.data_append, List.append_assoc]⟩

/-! ## Lemmas on letter case and on special float words -/

/-- A rune whose lower case is the ASCII letter `l` is `l` or its capital. -/
theorem unicodeToLower_eq_letter (c l : Char) (h : unicodeToLower (fun r => r) c = l) :
    c = l ∨ (c = Char.ofNat (l.toNat - 32) ∧ 'A'.toNat ≤ c.toNat ∧ c.toNat ≤ 'Z'.toNat) := by
  unfold unicodeToLower at h
  split_ifs at h with h1 h2
  · right
    refine ⟨?_, h2.1, h2.2⟩
    have hc : Char.ofNat c.toNat = c := Char.ofNat_toNat c
    obtain ⟨hlo, hhi⟩ := h2
    generalize c.toNat = n at h hc hlo hhi
    have hlo2 : 65 ≤ n := hlo
    have hhi2 : n ≤ 90 := hhi
    rw [← hc, ← h]
    interval_cases n <;> rfl
  · exact Or.inl h
  · exact Or.inl h

/-- The text `1e999` is out of the range of a 64-bit float. -/
theorem parseFloatOk_1e999 : strconv.ParseFloatOk "1e999" 64 = false := by
  set_option exponentiation.threshold 4000 in decide

theorem map_eq_cons_split (f : Char → Char) (d : List Char) (a : Char) (t : List Char)
    (h : d.map f = a :: t) : ∃ x d1, d = x :: d1 ∧ f x = a ∧ d1.map f = t := by
  cases d with
  | nil => exact nomatch h
  | cons x d1 =>
    simp only [List.map_cons, List.cons.injEq] at h
    exact ⟨x, d1, rfl, h.1, h.2⟩

/-- The three-letter words `nan` and `inf`, in any letter case, are accepted. -/
theorem parseFloatOk_three_letters (v : String)
    (hv : v.data.map (unicodeToLower (fun r => r)) = "nan".data
      ∨ v.data.map (unicodeToLower (fun r => r)) = "inf".data) :
    strconv.ParseFloatOk v 64 = true := by
  obtain ⟨d⟩ := v
  have hv2 : d.map (unicodeToLower (fun r => r)) = ['n', 'a', 'n']
      ∨ d.map (unicodeToLower (fun r => r)) = ['i', 'n', 'f'] := hv
  rcases hv2 with hv3 | hv3
  all_goals
    obtain ⟨x, d1, rfl, hx, hv3⟩ := map_eq_cons_split _ _ _ _ hv3
    obtain ⟨y, d2, rfl, hy, hv3⟩ := map_eq_cons_split _ _ _ _ hv3
    obtain ⟨z, d3, rfl, hz, hv3⟩ := map_eq_cons_split _ _ _ _ hv3
    obtain rfl := List.map_eq_nil_iff.1 hv3
    rcases unicodeToLower_eq_letter x _ hx with rfl | ⟨rfl, -⟩ <;>
    rcases unicodeToLower_eq_letter y _ hy with rfl | ⟨rfl, -⟩ <;>
    rcases unicodeToLower_eq_letter z _ hz with rfl | ⟨rfl, -⟩ <;>
    decide

/-- The word `infinity`, in any letter case, is accepted. -/
theorem parseFloatOk_infinity (v : String)
    (hv : v.data.map (unicodeToLower (fun r => r)) = "infinity".data) :
    strconv.ParseFloatOk v 64 = true := by
  obtain ⟨d⟩ := v
  have hv2 : d.map (unicodeToLower (fun r => r)) = ['i', 'n', 'f', 'i', 'n', 'i', 't', 'y'] := hv
  obtain ⟨x1, d1, rfl, h1, hv2⟩ := map_eq_cons_split _ _ _ _ hv2
  obtain ⟨x2, d2, rfl, h2, hv2⟩ := map_eq_cons_split _ _ _ _ hv2
  obtain ⟨x3, d3, rfl, h3, hv2⟩ := map_eq_cons_split _ _ _ _ hv2
  obtain ⟨x4, d4, rfl, h4, hv2⟩ := map_eq_cons_split _ _ _ _ hv2
  obtain ⟨x5, d5, rfl, h5, hv2⟩ := map_eq_cons_split _ _ _ _ hv2
  obtain ⟨x6, d6, rfl, h6, hv2⟩ := map_eq_cons_split _ _ _ _ hv2
  obtain ⟨x7, d7, rfl, h7, hv2⟩ := map_eq_cons_split _ _ _ _ hv2
  obtain ⟨x8, d8, rfl, h8, hv2⟩ := map_eq_cons_split _ _ _ _ hv2
  obtain rfl := List.map_eq_nil_iff.1 hv2
  rcases unicodeToLower_eq_letter x1 _ h1 with rfl | ⟨rfl, -⟩ <;>
  rcases unicodeToLower_eq_letter x2 _ h2 with rfl | ⟨rfl, -⟩ <;>
  rcases unicodeToLower_eq_letter x3 _ h3 with rfl | ⟨rfl, -⟩ <;>
  rcases unicodeToLower_eq_letter x4 _ h4 with rfl | ⟨rfl, -⟩ <;>
  rcases unicodeToLower_eq_letter x5 _ h5 with rfl | ⟨rfl, -⟩ <;>
  rcases unicodeToLower_eq_letter x6 _ h6 with rfl | ⟨rfl, -⟩ <;>
  rcases unicodeToLower_eq_letter x7 _ h7 with rfl | ⟨rfl, -⟩ <;>
  rcases unicodeToLower_eq_letter x8 _ h8 with rfl | ⟨rfl, -⟩ <;>
  decide

/-! ## Lemmas on words separated by spaces -/

theorem spaced_append (a b : List (List Char)) : spaced (a ++ b) = spaced a ++ spaced b := by
  induction a with
  | nil => rfl
  | cons w ws ih =>
    show ' ' :: (w ++ spaced (ws ++ b)) = ' ' :: (w ++ spaced ws) ++ spaced b
    rw [ih, List.cons_append, List.append_assoc]

/-- A text of spaced words is empty or starts with a space. -/
theorem spaced_head (ws : List (List Char)) : spaced ws = [] ∨ ∃ t, spaced ws = ' ' :: t := by
  cases ws with
  | nil => exact Or.inl rfl
  | cons w ws => exact Or.inr ⟨_, rfl⟩

/-- Two words without a space, each followed by nothing or by a space, are equal when the two
texts are. -/
theorem word_split (a b x y : List Char) (ha : ∀ ch ∈ a, ch ≠ ' ') (hb : ∀ ch ∈ b, ch ≠ ' ')
    (hx : x = [] ∨ ∃ t, x = ' ' :: t) (hy : y = [] ∨ ∃ t, y = ' ' :: t)
    (h : a ++ x = b ++ y) : a = b ∧ x = y := by
  induction a generalizing b with
  | nil =>
    cases b with
    | nil => exact ⟨rfl, h⟩
    | cons d b1 =>
      rcases hx with rfl | ⟨t, rfl⟩
      · exact nomatch h
      · simp only [List.nil_append, List.cons_append, List.cons.injEq] at h
        exact absurd h.1.symm (hb d (List.mem_cons_self d b1))
  | cons c a1 ih =>
    cases b with
    | nil =>
      rcases hy with rfl | ⟨t, rfl⟩
      · exact nomatch h
      · simp only [List.nil_append, List.cons_append, List.cons.injEq] at h
        exact absurd h.1 (ha c (List.mem_cons_self c a1))
    | cons d b1 =>
      simp only [List.cons_append, List.cons.injEq] at h
      obtain ⟨h1, h2⟩ := ih b1 (fun ch hch => ha ch (List.mem_cons_of_mem c hch))
        (fun ch hch => hb ch (List.mem_cons_of_mem d hch)) h.2
      exact ⟨by rw [h.1, h1], h2⟩

/-- The text of spaced words determines the words, when no word holds a space. -/
theorem spaced_injective (a b : List (List Char))
    (ha : ∀ w ∈ a, ∀ ch ∈ w, ch ≠ ' ') (hb : ∀ w ∈ b, ∀ ch ∈ w, ch ≠ ' ')
    (h : spaced a = spaced b) : a = b := by
  induction a generalizing b with
  | nil =>
    cases b with
    | nil => rfl
    | cons v b1 => exact nomatch h
  | cons w a1 ih =>
    cases b with
    | nil => exact nomatch h
    | cons v b1 =>
      simp only [spaced, List.cons.injEq, true_and] at h
      obtain ⟨h1, h2⟩ := word_split w v (spaced a1) (spaced b1)
        (ha w (List.mem_cons_self w a1)) (hb v (List.mem_cons_self v b1))
        (spaced_head a1) (spaced_head b1) h
      rw [h1, ih b1 (fun u hu => ha u (List.mem_cons_of_mem w hu))
        (fun u hu => hb u (List.mem_cons_of_mem v hu)) h2]

/-! ## Lemmas on the words of a rendered selector -/

/-- The words of a closed list determine the literals, whatever follows. -/
theorem closeWords_injective (lits : List String) :
    ∀ (lits2 : List String) (x y : List (List Char)), lits ≠ [] → lits2 ≠ [] →
      closeWords lits ++ x = closeWords lits2 ++ y → lits = lits2 ∧ x = y := by
  induction lits with
  | nil => intro lits2 x y h; exact absurd rfl h
  | cons l rest ih =>
    intro lits2 x y _ h2 h
    cases lits2 with
    | nil => exact absurd rfl h2
    | cons m rest2 =>
      cases rest with
      | nil =>
        cases rest2 with
        | nil =>
          simp only [closeWords, List.cons_append, List.nil_append, List.cons.injEq] at h
          have hl : l.data = m.data := List.append_cancel_right h.1
          exact ⟨by rw [String.ext hl], h.2⟩
        | cons m2 rest3 =>
          simp only [closeWords, List.cons_append, List.nil_append, List.cons.injEq] at h
          have hlast := congrArg List.getLast? h.1
          simp only [List.getLast?_concat, Option.some.injEq] at hlast
          exact absurd hlast (by decide)
      | cons l2 rest1 =>
        cases rest2 with
        | nil =>
          simp only [closeWords, List.cons_append, List.nil_append, List.cons.injEq] at h
          have hlast := congrArg List.getLast? h.1
          simp only [List.getLast?_concat, Option.some.injEq] at hlast
          exact absurd hlast (by decide)
        | cons m2 rest3 =>
          simp only [closeWords, List.cons_append, List.cons.injEq] at h
          have hl : l.data = m.data := List.append_cancel_right h.1
          obtain ⟨h3, h4⟩ := ih (m2 :: rest3) x y (List.cons_ne_nil _ _) (List.cons_ne_nil _ _) h.2
          exact ⟨by rw [String.ext hl, h3], h4⟩

theorem closeWords_ne_nil (lits : List String) : closeWords lits ≠ [] := by
  match lits with
  | [] => simp [closeWords]
  | [l] => simp [closeWords]
  | l :: l2 :: ls => simp [closeWords]

/-- The words of a parenthesised list determine the literals, whatever follows. -/
theorem listWords_injective (lits lits2 : List String) (x y : List (List Char))
    (h1 : lits ≠ []) (h2 : lits2 ≠ []) (h : listWords lits ++ x = listWords lits2 ++ y) :
    lits = lits2 ∧ x = y := by
  unfold listWords at h
  cases hc : closeWords lits with
  | nil => exact absurd hc (closeWords_ne_nil lits)
  | cons w ws =>
    cases hd : closeWords lits2 with
    | nil => exact absurd hd (closeWords_ne_nil lits2)
    | cons v vs =>
      rw [hc, hd] at h
      simp only [List.cons_append, List.cons.injEq, true_and] at h
      apply closeWords_injective lits lits2 x y h1 h2
      rw [hc, hd, List.cons_append, List.cons_append, h.1, h.2]

/-- The text of the words of a closed list: the literals joined by `, ` and the closing
parenthesis. -/
theorem spaced_closeWords (lits : List String) :
    spaced (closeWords lits) = ' ' :: (", ".intercalate lits ++ ")").data := by
  induction lits with
  | nil => rfl
  | cons l rest ih =>
    cases rest with
    | nil =>
      simp only [closeWords, spaced, intercalate_singleton, String.data_append,
        List.append_nil]
    | cons l2 rest1 =>
      rw [closeWords, spaced, ih, intercalate_cons_cons]
      simp only [String.data_append, List.append_assoc, List.cons.injEq, true_and]
      rfl

/-- The text of the words of a parenthesised list. -/
theorem spaced_listWords (lits : List String) :
    spaced (listWords lits) = (" (" ++ ", ".intercalate lits ++ ")").data := by
  have h := spaced_closeWords lits
  unfold listWords
  cases hc : closeWords lits with
  | nil => exact absurd hc (closeWords_ne_nil lits)
  | cons w ws =>
    rw [hc] at h
    simp only [spaced, List.cons.injEq, true_and] at h
    simp only [spaced, List.cons_append, String.data_append, List.append_assoc]
    show ' ' :: '(' :: (w ++ spaced ws) = ' ' :: '(' :: _
    rw [h]
    simp only [String.data_append, List.nil_append]

/-- Values without a single quote have different literals when they are different. -/
theorem renderedValue_injective (parseFloatOk : String → Nat → Bool) (v v2 : String)
    (hv : ∀ ch ∈ v.data, ch ≠ quote) (hv2 : ∀ ch ∈ v2.data, ch ≠ quote)
    (h : renderedValue parseFloatOk v = renderedValue parseFloatOk v2) : v = v2 := by
  unfold renderedValue at h
  split_ifs at h with h1 h2 h2
  · exact h
  · have hd := congrArg String.data h
    simp only [String.data_append, List.append_assoc] at hd
    have hq : quote ∈ v.data := by
      rw [hd]
      exact List.mem_append_left _ (by decide)
    exact absurd rfl (hv quote hq)
  · have hd := congrArg String.data h
    simp only [String.data_append, List.append_assoc] at hd
    have hq : quote ∈ v2.data := by
      rw [← hd]
      exact List.mem_append_left _ (by decide)
    exact absurd rfl (hv2 quote hq)
  · have hd := congrArg String.data h
    simp only [String.data_append, List.append_assoc] at hd
    have h3 := List.append_cancel_left hd
    exact String.ext (List.append_cancel_right h3)

/-- Lists of values without a single quote are equal when their literals are. -/
theorem map_renderedValue_injective (parseFloatOk : String → Nat → Bool) (vs : List String) :
    ∀ vs2 : List String, (∀ v ∈ vs, ∀ ch ∈ v.data, ch ≠ quote) →
      (∀ v ∈ vs2, ∀ ch ∈ v.data, ch ≠ quote) →
      vs.map (renderedValue parseFloatOk) = vs2.map (renderedValue parseFloatOk) → vs = vs2 := by
  induction vs with
  | nil =>
    intro vs2 _ _ h
    cases vs2 with
    | nil => rfl
    | cons b bs => exact nomatch h
  | cons a as ih =>
    intro vs2 h1 h2 h
    cases vs2 with
    | nil => exact nomatch h
    | cons b bs =>
      simp only [List.map_cons, List.cons.injEq] at h
      rw [renderedValue_injective parseFloatOk a b (h1 a (List.mem_cons_self a as))
          (h2 b (List.mem_cons_self b bs)) h.1,
        ih bs (fun v hv => h1 v (List.mem_cons_of_mem a hv))
          (fun v hv => h2 v (List.mem_cons_of_mem b hv)) h.2]

/-- The tokens of the nine known operators. -/
theorem transformOperator_mem (op : selection.Operator) (h : op ∈ selection.known) :
    transformOperator op ∈ ["=", "!=", ">", ",", "IS NOT NULL", "IS NULL", "IN", "NOT IN"] := by
  simp only [selection.known, List.mem_cons, List.mem_singleton, List.not_mem_nil,
    or_false] at h
  rcases h with h | h | h | h | h | h | h | h | h <;> subst h <;> decide

/-- The words of an operator token determine the token, whatever follows. -/
theorem opWords_injective (t t2 : String) (x y : List (List Char))
    (ht : t ∈ ["=", "!=", ">", ",", "IS NOT NULL", "IS NULL", "IN", "NOT IN"])
    (ht2 : t2 ∈ ["=", "!=", ">", ",", "IS NOT NULL", "IS NULL", "IN", "NOT IN"])
    (h : opWords t ++ x = opWords t2 ++ y) : t = t2 ∧ x = y := by
  simp only [List.mem_cons, List.mem_singleton, List.not_mem_nil, or_false] at ht ht2
  rcases ht with rfl | rfl | rfl | rfl | rfl | rfl | rfl | rfl <;>
    rcases ht2 with rfl | rfl | rfl | rfl | rfl | rfl | rfl | rfl <;>
    first
    | exact ⟨rfl, by simpa [opWords] using h⟩
    | (exfalso; revert h; simp [opWords])

/-- The words of a clause determine its key, token and values, whatever follows. -/
theorem clauseWords_injective (parseFloatOk : String → Nat → Bool)
    (c c2 : String × String × List String) (x y : List (List Char))
    (hc : validTriple c) (hc2 : validTriple c2)
    (h : clauseWords parseFloatOk c ++ x = clauseWords parseFloatOk c2 ++ y) :
    c = c2 ∧ x = y := by
  obtain ⟨k, t, vs⟩ := c
  obtain ⟨k2, t2, vs2⟩ := c2
  obtain ⟨ht, hlist, hex, hone, hq⟩ := hc
  obtain ⟨ht2, hlist2, hex2, hone2, hq2⟩ := hc2
  simp only at ht hlist hex hone hq ht2 hlist2 hex2 hone2 hq2
  simp only [clauseWords, List.cons_append, List.cons.injEq, List.append_assoc] at h
  obtain ⟨hk, h⟩ := h
  have hk2 : k = k2 := String.ext hk
  obtain ⟨htt, h⟩ := opWords_injective t t2 _ _ ht ht2 h
  subst hk2 htt
  by_cases hl : t = "IN" ∨ t = "NOT IN"
  · rw [if_pos hl, if_pos hl] at h
    obtain ⟨hm, hxy⟩ := listWords_injective _ _ x y
      (by simpa using hlist hl) (by simpa using hlist2 hl) h
    rw [map_renderedValue_injective parseFloatOk vs vs2 hq hq2 hm]
    exact ⟨rfl, hxy⟩
  · rw [if_neg hl, if_neg hl] at h
    have hlen : vs.length = vs2.length := by
      simp only [List.mem_cons, List.mem_singleton, List.not_mem_nil, or_false] at ht
      rcases ht with h0 | h0 | h0 | h0 | h0 | h0 | h0 | h0
      · rw [hone (Or.inl h0), hone2 (Or.inl h0)]
      · rw [hone (Or.inr (Or.inl h0)), hone2 (Or.inr (Or.inl h0))]
      · rw [hone (Or.inr (Or.inr (Or.inl h0))), hone2 (Or.inr (Or.inr (Or.inl h0)))]
      · rw [hone (Or.inr (Or.inr (Or.inr h0))), hone2 (Or.inr (Or.inr (Or.inr h0)))]
      · rw [hex (Or.inl h0), hex2 (Or.inl h0)]
      · rw [hex (Or.inr h0), hex2 (Or.inr h0)]
      · exact absurd (Or.inl h0) hl
      · exact absurd (Or.inr h0) hl
    obtain ⟨hm, hxy⟩ := List.append_inj h (by simp only [List.length_map, hlen])
    have hm2 : vs.map (renderedValue parseFloatOk) = vs2.map (renderedValue parseFloatOk) :=
      List.map_injective_iff.2 (fun a b hab => String.ext hab) hm
    rw [map_renderedValue_injective parseFloatOk vs vs2 hq hq2 hm2]
    exact ⟨rfl, hxy⟩

theorem clauseWords_ne_nil (parseFloatOk : String → Nat → Bool)
    (c : String × String × List String) : clauseWords parseFloatOk c ≠ [] := by
  simp [clauseWords]

theorem joinedWords_cons (parseFloatOk : String → Nat → Bool)
    (c : String × String × List String) (cs : List (String × String × List String)) :
    joinedWords parseFloatOk (c :: cs) = clauseWords parseFloatOk c ++
      (if cs = [] then [] else "and".data :: joinedWords parseFloatOk cs) := by
  cases cs with
  | nil => simp [joinedWords]
  | cons c2 rest => simp [joinedWords]

/-- The words of the joined clauses determine the triples of the requirements. -/
theorem joinedWords_injective (parseFloatOk : String → Nat → Bool)
    (cs : List (String × String × List String)) :
    ∀ cs2 : List (String × String × List String),
      (∀ c ∈ cs, validTriple c) → (∀ c ∈ cs2, validTriple c) →
      joinedWords parseFloatOk cs = joinedWords parseFloatOk cs2 → cs = cs2 := by
  induction cs with
  | nil =>
    intro cs2 _ _ h
    cases cs2 with
    | nil => rfl
    | cons c2 rest2 =>
      rw [joinedWords_cons] at h
      exact absurd (List.append_eq_nil.1 h.symm).1 (clauseWords_ne_nil parseFloatOk c2)
  | cons c rest ih =>
    intro cs2 h1 h2 h
    cases cs2 with
    | nil =>
      rw [joinedWords_cons] at h
      exact absurd (List.append_eq_nil.1 h).1 (clauseWords_ne_nil parseFloatOk c)
    | cons c2 rest2 =>
      rw [joinedWords_cons, joinedWords_cons] at h
      obtain ⟨hc, ht⟩ := clauseWords_injective parseFloatOk c c2 _ _
        (h1 c (List.mem_cons_self c rest)) (h2 c2 (List.mem_cons_self c2 rest2)) h
      subst hc
      by_cases hr : rest = []
      · by_cases hr2 : rest2 = []
        · rw [hr, hr2]
        · rw [if_pos hr, if_neg hr2] at ht
          exact nomatch ht
      · by_cases hr2 : rest2 = []
        · rw [if_neg hr, if_pos hr2] at ht
          exact nomatch ht
        · rw [if_neg hr, if_neg hr2] at ht
          simp only [List.cons.injEq, true_and] at ht
          rw [ih rest2 (fun x hx => h1 x (List.mem_cons_of_mem c hx))
            (fun x hx => h2 x (List.mem_cons_of_mem c hx)) ht]

theorem mem_insert (x v : String) (l : List String) (h : x ∈ sets.insert v l) :
    x = v ∨ x ∈ l := by
  induction l with
  | nil =>
    simp only [sets.insert, List.mem_singleton] at h
    exact Or.inl h
  | cons a l1 ih =>
    unfold sets.insert at h
    split_ifs at h
    · exact Or.inr h
    · rcases List.mem_cons.1 h with h1 | h1
      · exact Or.inl h1
      · exact Or.inr h1
    · rcases List.mem_cons.1 h with h1 | h1
      · exact Or.inr (h1 ▸ List.mem_cons_self a l1)
      · rcases ih h1 with h2 | h2
        · exact Or.inl h2
        · exact Or.inr (List.mem_cons_of_mem a h2)

/-- The sorted list of a set holds members of the set only. -/
theorem mem_sortedList (x : String) (members : List String)
    (h : x ∈ sets.sortedList members) : x ∈ members := by
  have key : ∀ (l acc : List String),
      x ∈ l.foldl (fun set v => sets.insert v set) acc → x ∈ acc ∨ x ∈ l := by
    intro l
    induction l with
    | nil => intro acc h; exact Or.inl h
    | cons a l1 ih =>
      intro acc h
      rcases ih _ h with h1 | h1
      · rcases mem_insert x a acc h1 with h2 | h2
        · exact Or.inr (h2 ▸ List.mem_cons_self a l1)
        · exact Or.inl h2
      · exact Or.inr (List.mem_cons_of_mem a h1)
  rcases key members [] h with h1 | h1
  · exact absurd h1 (List.not_mem_nil x)
  · exact h1

theorem spaced_opWords (t : String)
    (ht : t ∈ ["=", "!=", ">", ",", "IS NOT NULL", "IS NULL", "IN", "NOT IN"]) :
    spaced (opWords t) = ' ' :: t.data := by
  simp only [List.mem_cons, List.mem_singleton, List.not_mem_nil, or_false] at ht
  rcases ht with rfl | rfl | rfl | rfl | rfl | rfl | rfl | rfl <;> decide

theorem opWords_no_space (t : String)
    (ht : t ∈ ["=", "!=", ">", ",", "IS NOT NULL", "IS NULL", "IN", "NOT IN"]) :
    ∀ w ∈ opWords t, ∀ ch ∈ w, ch ≠ ' ' := by
  simp only [List.mem_cons, List.mem_singleton, List.not_mem_nil, or_false] at ht
  rcases ht with rfl | rfl | rfl | rfl | rfl | rfl | rfl | rfl <;> decide

/-- The operators behind the tokens of each kind. -/
theorem token_kinds (op : selection.Operator) (h : op ∈ selection.known) :
    (transformOperator op = "IN" ∨ transformOperator op = "NOT IN" →
        op ∈ [selection.In, selection.NotIn])
      ∧ (transformOperator op = "IS NOT NULL" ∨ transformOperator op = "IS NULL" →
        op = selection.Exists ∨ op = selection.DoesNotExist)
      ∧ (transformOperator op = "=" ∨ transformOperator op = "!=" ∨ transformOperator op = ">"
          ∨ transformOperator op = "," →
        op ∈ [selection.Equals, selection.DoubleEquals, selection.NotEquals,
          selection.GreaterThan, selection.LessThan]) := by
  simp only [selection.known, List.mem_cons, List.mem_singleton, List.not_mem_nil,
    or_false] at h
  rcases h with h | h | h | h | h | h | h | h | h <;> subst h <;> decide

theorem not_existence_of_valued (op : selection.Operator)
    (h : op ∈ [selection.In, selection.NotIn] ∨ op ∈ [selection.Equals,
      selection.DoubleEquals, selection.NotEquals, selection.GreaterThan,
      selection.LessThan]) :
    ¬ (op = selection.Exists ∨ op = selection.DoesNotExist) := by
  simp only [List.mem_cons, List.mem_singleton, List.not_mem_nil, or_false] at h
  rcases h with (h | h) | (h | h | h | h | h) <;> subst h <;> decide

/-- On the data model, with label syntax, `canonical` gives a valid triple. -/
theorem canonical_valid (r : labels.Requirement) (hd : dataModel r) (hs : labelSyntax r) :
    validTriple (canonical r) := by
  obtain ⟨k, op, vs⟩ := r
  obtain ⟨_, hknown, hone, hmany⟩ := hd
  obtain ⟨_, hval⟩ := hs
  simp only at hknown hone hmany hval
  obtain ⟨hlist, hexist, hsingle⟩ := token_kinds op hknown
  refine ⟨transformOperator_mem op hknown, ?_, ?_, ?_, ?_⟩
  · intro ht
    have hop := hlist ht
    simp only [canonical, labels.Requirement.ValuesList]
    rw [if_neg (not_existence_of_valued op (Or.inl hop))]
    exact sortedList_ne_nil vs (hmany hop)
  · intro ht
    simp only [canonical]
    rw [if_pos (hexist ht)]
  · intro ht
    have hop := hsingle ht
    simp only [canonical, labels.Requirement.ValuesList]
    rw [if_neg (not_existence_of_valued op (Or.inr hop))]
    have hl := hone hop
    match vs, hl with
    | [v], _ => rfl
  · intro v hv ch hch
    simp only [canonical, labels.Requirement.ValuesList] at hv
    split_ifs at hv
    · exact absurd hv (List.not_mem_nil v)
    · exact (hval v (mem_sortedList v vs hv) ch hch).2

theorem inClauseLoop_renderedValue (parseFloatOk : String → Nat → Bool) (values : List String) :
    inClauseLoop parseFloatOk values.length 0 values "("
      = "(" ++ ", ".intercalate (values.map (renderedValue parseFloatOk)) :=
  inClauseLoop_eq parseFloatOk values.length values 0 "(" (Nat.zero_add _)

/-- The branch conditions of the switch, of `canonical` and of `clauseWords` for each kind of
known operator. -/
theorem operator_conditions (op : selection.Operator) (h : op ∈ selection.known) :
    (op ∈ [selection.Equals, selection.DoubleEquals, selection.NotEquals,
          selection.GreaterThan, selection.LessThan]
        ∧ (op = selection.Equals ∨ op = selection.DoubleEquals ∨ op = selection.GreaterThan
          ∨ op = selection.LessThan ∨ op = selection.NotEquals)
        ∧ ¬ (op = selection.Exists ∨ op = selection.DoesNotExist)
        ∧ ¬ (transformOperator op = "IN" ∨ transformOperator op = "NOT IN"))
      ∨ (op ∈ [selection.In, selection.NotIn]
        ∧ ¬ (op = selection.Equals ∨ op = selection.DoubleEquals ∨ op = selection.GreaterThan
          ∨ op = selection.LessThan ∨ op = selection.NotEquals)
        ∧ (op = selection.In ∨ op = selection.NotIn)
        ∧ ¬ (op = selection.Exists ∨ op = selection.DoesNotExist)
        ∧ (transformOperator op = "IN" ∨ transformOperator op = "NOT IN"))
      ∨ (¬ (op = selection.Equals ∨ op = selection.DoubleEquals ∨ op = selection.GreaterThan
          ∨ op = selection.LessThan ∨ op = selection.NotEquals)
        ∧ ¬ (op = selection.In ∨ op = selection.NotIn)
        ∧ (op = selection.DoesNotExist ∨ op = selection.Exists)
        ∧ (op = selection.Exists ∨ op = selection.DoesNotExist)
        ∧ ¬ (transformOperator op = "IN" ∨ transformOperator op = "NOT IN")) := by
  simp only [selection.known, List.mem_cons, List.mem_singleton, List.not_mem_nil,
    or_false] at h
  rcases h with h | h | h | h | h | h | h | h | h <;> subst h <;> decide

/-- On the data model, the clause the switch renders is the text of the words of the
canonical triple. -/
theorem matchSwitch_words (parseFloatOk : String → Nat → Bool) (r : labels.Requirement)
    (hd : dataModel r) :
    matchSwitch parseFloatOk "" r = some ⟨spaced (clauseWords parseFloatOk (canonical r))⟩ := by
  obtain ⟨k, op, vs⟩ := r
  obtain ⟨_, hknown, hone, hmany⟩ := hd
  simp only at hknown hone hmany
  have htok := spaced_opWords (transformOperator op) (transformOperator_mem op hknown)
  unfold matchSwitch
  simp only [labels.Requirement.Key, labels.Requirement.Operator, labels.Requirement.ValuesList,
    canonical, clauseWords]
  rcases operator_conditions op hknown with ⟨hA, c1, c4, c5⟩ | ⟨_, c1, c2, c4, c5⟩
    | ⟨c1, c2, c3, c4, c5⟩
  · obtain ⟨v, hv⟩ := List.length_eq_one.1 (hone hA)
    subst hv
    rw [if_pos c1, if_neg c4, if_neg c5]
    show some (buildSimpleCondition parseFloatOk "" k op v) = _
    rw [buildSimpleCondition_eq]
    congr 1
    apply String.ext
    show _ = spaced (k.data :: (opWords (transformOperator op)
      ++ [(renderedValue parseFloatOk v).data]))
    simp only [spaced, spaced_append, htok, String.data_append, List.append_assoc,
      List.cons_append, List.nil_append, List.append_nil]
    rfl
  · rw [if_neg c1, if_pos c2, if_neg c4, if_pos c5]
    unfold buildINClause
    simp only [inClauseLoop_renderedValue]
    congr 1
    apply String.ext
    simp only [spaced, spaced_append, htok, spaced_listWords, String.data_append,
      List.append_assoc, List.cons_append, List.nil_append]
  · rw [if_neg c1, if_neg c2, if_pos c3, if_pos c4, if_neg c5]
    congr 1
    apply String.ext
    simp only [spaced, spaced_append, htok, String.data_append, List.append_assoc,
      List.cons_append, List.nil_append, List.append_nil, List.map_nil]

theorem renderedValue_no_space (parseFloatOk : String → Nat → Bool) (v : String)
    (hv : ∀ ch ∈ v.data, ch ≠ ' ') : ∀ ch ∈ (renderedValue parseFloatOk v).data, ch ≠ ' ' := by
  intro ch hch
  unfold renderedValue at hch
  split_ifs at hch
  · exact hv ch hch
  · simp only [String.data_append, List.mem_append] at hch
    rcases hch with (h | h) | h
    · intro hc; subst hc; revert h; decide
    · exact hv ch h
    · intro hc; subst hc; revert h; decide

theorem closeWords_no_space (lits : List String)
    (h : ∀ l ∈ lits, ∀ ch ∈ l.data, ch ≠ ' ') :
    ∀ w ∈ closeWords lits, ∀ ch ∈ w, ch ≠ ' ' := by
  induction lits with
  | nil => decide
  | cons l rest ih =>
    have hl := h l (List.mem_cons_self l rest)
    have hrest := ih (fun x hx => h x (List.mem_cons_of_mem l hx))
    cases rest with
    | nil =>
      intro w hw ch hch
      simp only [closeWords, List.mem_singleton] at hw
      subst hw
      rcases List.mem_append.1 hch with h1 | h1
      · exact hl ch h1
      · intro hc; subst hc; revert h1; decide
    | cons l2 rest2 =>
      intro w hw ch hch
      simp only [closeWords, List.mem_cons] at hw
      rcases hw with hw | hw
      · subst hw
        rcases List.mem_append.1 hch with h1 | h1
        · exact hl ch h1
        · intro hc; subst hc; revert h1; decide
      · exact hrest w (by simpa [closeWords] using hw) ch hch

theorem listWords_no_space (lits : List String)
    (h : ∀ l ∈ lits, ∀ ch ∈ l.data, ch ≠ ' ') :
    ∀ w ∈ listWords lits, ∀ ch ∈ w, ch ≠ ' ' := by
  have hc := closeWords_no_space lits h
  unfold listWords
  cases hcw : closeWords lits with
  | nil => exact absurd hcw (closeWords_ne_nil lits)
  | cons w0 ws =>
    rw [hcw] at hc
    intro w hw ch hch
    rcases List.mem_cons.1 hw with hw | hw
    · subst hw
      rcases List.mem_cons.1 hch with h1 | h1
      · intro hc2; subst hc2; revert h1; decide
      · exact hc w0 (List.mem_cons_self w0 ws) ch h1
    · exact hc w (List.mem_cons_of_mem w0 hw) ch hch

/-- With label syntax no word of a clause holds a space. -/
theorem clauseWords_no_space (parseFloatOk : String → Nat → Bool) (r : labels.Requirement)
    (hd : dataModel r) (hs : labelSyntax r) :
    ∀ w ∈ clauseWords parseFloatOk (canonical r), ∀ ch ∈ w, ch ≠ ' ' := by
  obtain ⟨hkey, hval⟩ := hs
  have hvals : ∀ l ∈ (canonical r).2.2.map (renderedValue parseFloatOk),
      ∀ ch ∈ l.data, ch ≠ ' ' := by
    intro l hl
    obtain ⟨v, hv, rfl⟩ := List.mem_map.1 hl
    apply renderedValue_no_space
    intro ch hch
    simp only [canonical, labels.Requirement.ValuesList] at hv
    split_ifs at hv
    · exact absurd hv (List.not_mem_nil v)
    · exact (hval v (mem_sortedList v _ hv) ch hch).1
  intro w hw
  simp only [clauseWords, List.mem_cons, List.mem_append] at hw
  rcases hw with hw | hw | hw
  · subst hw
    exact hkey
  · exact opWords_no_space _ (transformOperator_mem _ hd.2.1) w hw
  · split_ifs at hw
    · exact listWords_no_space _ hvals w hw
    · obtain ⟨l, hl, rfl⟩ := List.mem_map.1 hw
      exact hvals l hl

theorem joinedWords_no_space (parseFloatOk : String → Nat → Bool)
    (rs : List labels.Requirement) (hd : ∀ r ∈ rs, dataModel r) (hs : ∀ r ∈ rs, labelSyntax r) :
    ∀ w ∈ joinedWords parseFloatOk (rs.map canonical), ∀ ch ∈ w, ch ≠ ' ' := by
  induction rs with
  | nil => intro w hw; exact absurd hw (List.not_mem_nil w)
  | cons r rest ih =>
    intro w hw
    rw [List.map_cons, joinedWords_cons] at hw
    rcases List.mem_append.1 hw with h1 | h1
    · exact clauseWords_no_space parseFloatOk r (hd r (List.mem_cons_self r rest))
        (hs r (List.mem_cons_self r rest)) w h1
    · split_ifs at h1
      · exact absurd h1 (List.not_mem_nil w)
      · rcases List.mem_cons.1 h1 with h2 | h2
        · subst h2; decide
        · exact ih (fun x hx => hd x (List.mem_cons_of_mem r hx))
            (fun x hx => hs x (List.mem_cons_of_mem r hx)) w h2

/-- The clauses of a requirement list joined by ` and`, as the text of its words. -/
theorem intercalate_words (parseFloatOk : String → Nat → Bool) (rs : List labels.Requirement)
    (hd : ∀ r ∈ rs, dataModel r) :
    (" and".intercalate (rs.map (fun r => (matchSwitch parseFloatOk "" r).getD ""))).data
      = spaced (joinedWords parseFloatOk (rs.map canonical)) := by
  induction rs with
  | nil => rfl
  | cons r rest ih =>
    have hr := matchSwitch_words parseFloatOk r (hd r (List.mem_cons_self r rest))
    have hrest := ih (fun x hx => hd x (List.mem_cons_of_mem r hx))
    cases rest with
    | nil =>
      simp only [List.map_cons, List.map_nil, intercalate_singleton, hr, Option.getD_some,
        joinedWords]
    | cons r2 rest2 =>
      rw [List.map_cons, List.map_cons, intercalate_cons_cons, List.map_cons, List.map_cons,
        joinedWords, spaced_append]
      rw [List.map_cons, List.map_cons] at hrest
      simp only [String.data_append, hr, Option.getD_some, hrest, spaced, List.append_assoc]
      rfl

/-- On the data model `addMatchFilter` appends the text of the joined words after ` where`. -/
theorem addMatchFilter_words (parseFloatOk : String → Nat → Bool) (q : Query)
    (rs : List labels.Requirement) (hd : ∀ r ∈ rs, dataModel r) :
    addMatchFilter parseFloatOk q (some (labels.Selector.internalSelector rs))
      = some ⟨q.data ++ (if rs = [] then []
          else " where".data ++ spaced (joinedWords parseFloatOk (rs.map canonical)))⟩ := by
  by_cases hrs : rs = []
  · subst hrs
    simp only [if_true, List.append_nil]
    rfl
  · have hsw : ∀ r ∈ rs, ∃ c, matchSwitch parseFloatOk "" r = some c :=
      fun r hr => ⟨_, matchSwitch_words parseFloatOk r (hd r hr)⟩
    have hloop := matchLoop_eq parseFloatOk rs.length rs 0 "where" (Nat.zero_add _) hsw
    have hlen : (rs.length == 0) = false := by
      cases rs with
      | nil => exact absurd rfl hrs
      | cons r rest => rfl
    simp only [addMatchFilter, labels.Selector.Requirements, hlen, Bool.not_true,
      Bool.or_self, Bool.false_eq_true, if_false, hloop, if_neg hrs]
    congr 1
    apply String.ext
    simp only [String.data_append, List.append_assoc, intercalate_words parseFloatOk rs hd]
    rfl

/-! ## Theorems on `addLimit` and `addClusterFilter` -/

/-- C3. `addLimit` leaves `q` unchanged when the token ` limit ` (the word between two spaces)
occurs in the lower-cased text of `q`, and appends ` limit 1` otherwise; a base query ending
in `LIMIT 5` or `LiMiT 5` is returned unchanged. -/
theorem addLimit_cases (caseTable : Char → Char) (q : Query) :
    addLimit caseTable q =
        (if " limit ".data <:+: (stringsToLower caseTable q).data then q else q ++ " limit 1")
      ∧ addLimit caseTable "SELECT x FROM y LIMIT 5" = "SELECT x FROM y LIMIT 5"
      ∧ addLimit caseTable "SELECT x FROM y LiMiT 5" = "SELECT x FROM y LiMiT 5" := by
  refine ⟨?_, rfl, rfl⟩
  unfold addLimit
  by_cases h : stringsContains (stringsToLower caseTable q) limitClause = true
  · have h1 : " limit ".data <:+: (stringsToLower caseTable q).data :=
      (stringsContains_iff _ limitClause).1 h
    rw [if_pos h, if_pos h1]
  · have h1 : ¬ " limit ".data <:+: (stringsToLower caseTable q).data :=
      fun h2 => h ((stringsContains_iff _ limitClause).2 h2)
    rw [if_neg h, if_neg h1]

/-- C4. `addLimit` is idempotent: a second call returns the result of the first. -/
theorem addLimit_idempotent (caseTable : Char → Char) (q : Query) :
    addLimit caseTable (addLimit caseTable q) = addLimit caseTable q := by
  by_cases h : stringsContains (stringsToLower caseTable q) limitClause = true
  · have h1 : addLimit caseTable q = q := by unfold addLimit; rw [if_pos h]
    rw [h1, h1]
  · have h1 : addLimit caseTable q = q ++ " limit 1" := by unfold addLimit; rw [if_neg h]
    have h2 : stringsContains (stringsToLower caseTable (q ++ " limit 1")) limitClause = true := by
      rw [stringsContains_iff, stringsToLower_append, stringsToLower_limit_one]
      refine ⟨(stringsToLower caseTable q).data, "1".data, ?_⟩
      simp only [String.data_append, List.append_assoc]
      rfl
    rw [h1]
    unfold addLimit
    rw [if_pos h2]

/-- C5, as stated, fails: the query `SELECT limitValue FROM Metric` contains the substring
`limit`, and `addLimit` still appends ` limit 1` to it. -/
theorem addLimit_substring_counterexample :
    ¬ ∀ (caseTable : Char → Char) (q : Query),
        "limit".data <:+: (stringsToLower caseTable q).data → addLimit caseTable q = q := by
  intro h
  have h1 := h id "SELECT limitValue FROM Metric" (by decide)
  revert h1
  decide

/-- C5, amended. When the word `limit`, in any letter case, stands between two single spaces
in the query, `addLimit` returns the query unchanged. -/
theorem addLimit_noop_on_spaced_limit (caseTable : Char → Char) (a m b : String)
    (hm : stringsToLower caseTable m = "limit") :
    addLimit caseTable (a ++ " " ++ m ++ " " ++ b) = a ++ " " ++ m ++ " " ++ b := by
  have h : stringsContains (stringsToLower caseTable (a ++ " " ++ m ++ " " ++ b)) limitClause
      = true := by
    rw [stringsContains_iff]
    simp only [stringsToLower_append, hm, stringsToLower_space]
    refine ⟨(stringsToLower caseTable a).data, (stringsToLower caseTable b).data, ?_⟩
    simp only [String.data_append, List.append_assoc]
    rfl
  unfold addLimit
  rw [if_pos h]

theorem addLimit_noop_on_spaced_limit_witness :
    stringsToLower id "LiMiT" = "limit" ∧
      addLimit id ("SELECT x FROM y" ++ " " ++ "LiMiT" ++ " " ++ "5")
        = "SELECT x FROM y" ++ " " ++ "LiMiT" ++ " " ++ "5" :=
  ⟨by decide, addLimit_noop_on_spaced_limit id "SELECT x FROM y" "LiMiT" "5" (by decide)⟩

/-- C6. `addClusterFilter` with the flag off returns the query; with the flag on it appends
` where clusterName='c'`, the identifier copied verbatim between single quotes, also when it
reads as a number. -/
theorem addClusterFilter_spec (q : Query) (c : String) :
    addClusterFilter q c false = q
      ∧ addClusterFilter q c true = q ++ " where clusterName='" ++ c ++ "'"
      ∧ addClusterFilter q "123" true = q ++ " where clusterName='123'" := by
  refine ⟨rfl, rfl, ?_⟩
  show q ++ " where clusterName='" ++ "123" ++ "'" = q ++ " where clusterName='123'"
  rw [String.append_assoc, String.append_assoc]
  rfl

/-! ## Theorems on the clause builders -/

/-- C7. The operator table: both equality spellings give `=`, then `!=`, `>`, `IS NOT NULL`,
`IS NULL`, `IN`, `NOT IN`; the token of `LessThan` is a comma, not `<`. -/
theorem transformOperator_table :
    transformOperator selection.Equals = "="
      ∧ transformOperator selection.DoubleEquals = "="
      ∧ transformOperator selection.NotEquals = "!="
      ∧ transformOperator selection.GreaterThan = ">"
      ∧ transformOperator selection.Exists = "IS NOT NULL"
      ∧ transformOperator selection.DoesNotExist = "IS NULL"
      ∧ transformOperator selection.In = "IN"
      ∧ transformOperator selection.NotIn = "NOT IN"
      ∧ transformOperator selection.LessThan = ","
      ∧ transformOperator selection.LessThan ≠ "<" := by
  decide

/-- C8. An operator that is none of the nine known kinds is translated to the empty text. -/
theorem transformOperator_unknown (op : selection.Operator)
    (h : op ≠ selection.Equals ∧ op ≠ selection.DoubleEquals ∧ op ≠ selection.NotEquals
      ∧ op ≠ selection.GreaterThan ∧ op ≠ selection.LessThan ∧ op ≠ selection.Exists
      ∧ op ≠ selection.DoesNotExist ∧ op ≠ selection.In ∧ op ≠ selection.NotIn) :
    transformOperator op = "" := by
  obtain ⟨h1, h2, h3, h4, h5, h6, h7, h8, h9⟩ := h
  have e : ∀ x : String, op ≠ x → (op == x) = false := fun x hx => by simpa using hx
  simp only [transformOperator, List.lookup, e _ h1, e _ h2, e _ h3, e _ h4, e _ h5, e _ h6,
    e _ h7, e _ h8, e _ h9, Option.getD_none]

theorem transformOperator_unknown_witness :
    ("regex" ≠ selection.Equals ∧ "regex" ≠ selection.DoubleEquals
        ∧ "regex" ≠ selection.NotEquals ∧ "regex" ≠ selection.GreaterThan
        ∧ "regex" ≠ selection.LessThan ∧ "regex" ≠ selection.Exists
        ∧ "regex" ≠ selection.DoesNotExist ∧ "regex" ≠ selection.In
        ∧ "regex" ≠ selection.NotIn)
      ∧ transformOperator "regex" = "" :=
  ⟨by decide, transformOperator_unknown "regex" (by decide)⟩

/-- C9. `buildSimpleCondition` appends a space, the key, a space, the translated operator, a
space and the literal: the value itself when it parses as a 64-bit float, the value between
one pair of single quotes, copied verbatim, when it does not. -/
theorem buildSimpleCondition_spec (parseFloatOk : String → Nat → Bool)
    (w k : String) (op : selection.Operator) (v : String) :
    buildSimpleCondition parseFloatOk w k op v =
      w ++ " " ++ k ++ " " ++ transformOperator op ++ " " ++
        (if parseFloatOk v 64 = true then v else "'" ++ v ++ "'") := by
  exact buildSimpleCondition_eq parseFloatOk w k op v

/-- C10. `buildINClause` appends a space, the key, a space, the translated operator and
the parenthesised list of the literals, in the order of `values`, separated by `, ` with no
trailing separator, each literal bare when it parses as a float and single-quoted otherwise.
For the key `app`, the operator `In` and the values `a`, `1` the clause is
`app IN ('a', 1)`. -/
theorem buildINClause_spec (parseFloatOk : String → Nat → Bool)
    (w k : String) (op : selection.Operator) (values : List String) :
    buildINClause parseFloatOk w k op values =
        w ++ " " ++ k ++ " " ++ transformOperator op ++ " (" ++
          ", ".intercalate
            (values.map (fun v => if parseFloatOk v 64 = true then v else "'" ++ v ++ "'"))
          ++ ")"
      ∧ buildINClause strconv.ParseFloatOk "where" "app" selection.In ["a", "1"]
          = "where app IN ('a', 1)" := by
  refine ⟨?_, by decide⟩
  unfold buildINClause
  simp only [inClauseLoop_eq parseFloatOk values.length values 0 "(" (Nat.zero_add _)]
  apply String.ext
  simp only [String.data_append, List.append_assoc]
  rfl

/-! ## Theorems on `addMatchFilter` -/

/-- C2. `addMatchFilter` with the nil selector, with a selector of zero requirements, or
with the selector that matches nothing, returns the query unchanged: no `where` is
appended. -/
theorem addMatchFilter_empty (parseFloatOk : String → Nat → Bool) (q : Query) :
    addMatchFilter parseFloatOk q none = some q
      ∧ addMatchFilter parseFloatOk q (some (labels.Selector.internalSelector [])) = some q
      ∧ addMatchFilter parseFloatOk q (some labels.Selector.nothingSelector) = some q :=
  ⟨rfl, rfl, rfl⟩

/-- C1. For a selector with the non-empty requirement list `rs`, every operator known and
every one-value comparison carrying a value, `addMatchFilter` returns the query followed by
` where` and by the clauses `cs` joined with ` and`: `cs` lists, in the order of `rs`, the
clause the switch renders for each requirement, each clause starting with a space and the key;
the joiner stands between consecutive clauses only. -/
theorem addMatchFilter_order (parseFloatOk : String → Nat → Bool) (q : Query)
    (rs : List labels.Requirement) (hne : rs ≠ [])
    (hknown : ∀ r ∈ rs, r.operator ∈ selection.known)
    (hvalue : ∀ r ∈ rs, r.operator ∈ [selection.Equals, selection.DoubleEquals,
      selection.NotEquals, selection.GreaterThan, selection.LessThan] → r.strValues ≠ []) :
    ∃ cs : List String,
      List.Forall₂ (fun r c => matchSwitch parseFloatOk "" r = some c
          ∧ ∃ t, c = " " ++ r.key ++ " " ++ t) rs cs
      ∧ addMatchFilter parseFloatOk q (some (labels.Selector.internalSelector rs))
          = some (q ++ " where" ++ " and".intercalate cs) := by
  have hsw : ∀ r ∈ rs, ∃ t, matchSwitch parseFloatOk "" r = some (" " ++ r.key ++ " " ++ t) :=
    fun r hr => matchSwitch_known parseFloatOk r (hknown r hr) (hvalue r hr)
  refine ⟨rs.map (fun r => (matchSwitch parseFloatOk "" r).getD ""), ?_, ?_⟩
  · rw [List.forall₂_map_right_iff, List.forall₂_same]
    intro r hr
    obtain ⟨t, ht⟩ := hsw r hr
    exact ⟨by rw [ht]; rfl, t, by rw [ht]; rfl⟩
  · have hloop := matchLoop_eq parseFloatOk rs.length rs 0 "where" (Nat.zero_add _)
      (fun r hr => let ⟨t, ht⟩ := hsw r hr; ⟨_, ht⟩)
    have hlen : (rs.length == 0) = false := by
      cases rs with
      | nil => exact absurd rfl hne
      | cons r rest => rfl
    simp only [addMatchFilter, labels.Selector.Requirements, hlen, Bool.not_true,
      Bool.or_self, Bool.false_eq_true, if_false, hloop]
    congr 1
    apply String.ext
    simp only [String.data_append, List.append_assoc]
    rfl

theorem addMatchFilter_order_witness :
    ([⟨"app", selection.In, ["b", "7"]⟩, ⟨"tier", selection.NotEquals, ["db"]⟩,
        ⟨"zone", selection.Exists, []⟩] : List labels.Requirement) ≠ []
      ∧ (∃ cs : List String,
          List.Forall₂ (fun r c => matchSwitch strconv.ParseFloatOk "" r = some c
              ∧ ∃ t, c = " " ++ r.key ++ " " ++ t)
            [⟨"app", selection.In, ["b", "7"]⟩, ⟨"tier", selection.NotEquals, ["db"]⟩,
              ⟨"zone", selection.Exists, []⟩] cs
          ∧ addMatchFilter strconv.ParseFloatOk "SELECT x FROM y"
              (some (labels.Selector.internalSelector
                [⟨"app", selection.In, ["b", "7"]⟩, ⟨"tier", selection.NotEquals, ["db"]⟩,
                  ⟨"zone", selection.Exists, []⟩]))
              = some ("SELECT x FROM y" ++ " where" ++ " and".intercalate cs))
      ∧ addMatchFilter strconv.ParseFloatOk "SELECT x FROM y"
          (some (labels.Selector.internalSelector
            [⟨"app", selection.In, ["b", "7"]⟩, ⟨"tier", selection.NotEquals, ["db"]⟩,
              ⟨"zone", selection.Exists, []⟩]))
          = some "SELECT x FROM y where app IN (7, 'b') and tier != 'db' and zone IS NOT NULL" :=
  ⟨by decide,
    addMatchFilter_order strconv.ParseFloatOk "SELECT x FROM y"
      [⟨"app", selection.In, ["b", "7"]⟩, ⟨"tier", selection.NotEquals, ["db"]⟩,
        ⟨"zone", selection.Exists, []⟩]
      (by decide) (by decide) (by decide),
    by decide⟩

/-- C11. A selector with the one requirement `(k, Exists, vs)` gives the query followed by
` where k IS NOT NULL`, and with `(k, DoesNotExist, vs)` by ` where k IS NULL`: the clause
carries no literal and the values `vs` play no part. -/
theorem addMatchFilter_existence (parseFloatOk : String → Nat → Bool) (q : Query)
    (k : String) (vs : List String) :
    addMatchFilter parseFloatOk q
        (some (labels.Selector.internalSelector [⟨k, selection.Exists, vs⟩]))
        = some (q ++ " where " ++ k ++ " IS NOT NULL")
      ∧ addMatchFilter parseFloatOk q
        (some (labels.Selector.internalSelector [⟨k, selection.DoesNotExist, vs⟩]))
        = some (q ++ " where " ++ k ++ " IS NULL") := by
  have hswitch : ∀ op : selection.Operator,
      op = selection.Exists ∨ op = selection.DoesNotExist →
      matchSwitch parseFloatOk "where" ⟨k, op, vs⟩
        = some ("where" ++ " " ++ k ++ " " ++ transformOperator op) := by
    intro op hop
    unfold matchSwitch
    simp only [labels.Requirement.Key, labels.Requirement.Operator]
    rcases hop with h | h <;> subst h <;>
      rw [if_neg (by decide), if_neg (by decide), if_pos (by decide)]
  constructor
  · simp only [addMatchFilter, labels.Selector.Requirements, matchLoop,
      hswitch selection.Exists (Or.inl rfl)]
    show some (q ++ " " ++ ("where" ++ " " ++ k ++ " " ++ "IS NOT NULL")) = _
    congr 1
    apply String.ext
    simp only [String.data_append, List.append_assoc]
    rfl
  · simp only [addMatchFilter, labels.Selector.Requirements, matchLoop,
      hswitch selection.DoesNotExist (Or.inr rfl)]
    show some (q ++ " " ++ ("where" ++ " " ++ k ++ " " ++ "IS NULL")) = _
    congr 1
    apply String.ext
    simp only [String.data_append, List.append_assoc]
    rfl

/-- C12. The end-to-end example: from `SELECT average(cpu) FROM Metric`, `addLimit` appends
` limit 1`, `addClusterFilter("prod-1", true)` appends ` where clusterName='prod-1'`, and
`addMatchFilter` with the selector `app Equals api` appends a second `where` fragment,
` where app = 'api'`. -/
theorem pipeline_example (caseTable : Char → Char) :
    addLimit caseTable "SELECT average(cpu) FROM Metric"
        = "SELECT average(cpu) FROM Metric limit 1"
      ∧ addClusterFilter "SELECT average(cpu) FROM Metric limit 1" "prod-1" true
        = "SELECT average(cpu) FROM Metric limit 1 where clusterName='prod-1'"
      ∧ addMatchFilter strconv.ParseFloatOk
          "SELECT average(cpu) FROM Metric limit 1 where clusterName='prod-1'"
          (some (labels.Selector.internalSelector [⟨"app", selection.Equals, ["api"]⟩]))
        = some "SELECT average(cpu) FROM Metric limit 1 where clusterName='prod-1' where app = 'api'"
      ∧ pipeline caseTable strconv.ParseFloatOk "SELECT average(cpu) FROM Metric" "prod-1" true
          (some (labels.Selector.internalSelector [⟨"app", selection.Equals, ["api"]⟩]))
        = some "SELECT average(cpu) FROM Metric limit 1 where clusterName='prod-1' where app = 'api'" := by
  have h1 : addLimit caseTable "SELECT average(cpu) FROM Metric"
      = "SELECT average(cpu) FROM Metric limit 1" := rfl
  refine ⟨h1, by decide, by decide, ?_⟩
  unfold pipeline
  rw [h1]
  decide

/-- C14. When every `Equals`, `DoubleEquals`, `NotEquals`, `GreaterThan` or `LessThan`
requirement of the selector carries a value, `addMatchFilter` returns a query text: the
access to the first value is in range.  Without that condition it fails: a requirement list
that holds such a requirement with no value makes the call panic. -/
theorem addMatchFilter_total (parseFloatOk : String → Nat → Bool) (q : Query)
    (sel : Option labels.Selector)
    (h : ∀ s, sel = some s → ∀ r ∈ s.Requirements.1,
      r.operator ∈ [selection.Equals, selection.DoubleEquals, selection.NotEquals,
        selection.GreaterThan, selection.LessThan] → r.strValues ≠ []) :
    (∃ out, addMatchFilter parseFloatOk q sel = some out)
      ∧ ∀ rs : List labels.Requirement,
          (∃ r ∈ rs, r.operator ∈ [selection.Equals, selection.DoubleEquals,
            selection.NotEquals, selection.GreaterThan, selection.LessThan]
              ∧ r.strValues = []) →
          addMatchFilter parseFloatOk q (some (labels.Selector.internalSelector rs)) = none := by
  constructor
  · cases sel with
    | none => exact ⟨q, rfl⟩
    | some s =>
      have hs := h s rfl
      unfold addMatchFilter
      simp only
      split_ifs with h1
      · exact ⟨q, rfl⟩
      · cases hl : matchLoop parseFloatOk s.Requirements.1.length 0 s.Requirements.1 "where" with
        | none =>
          obtain ⟨r, hr, hop, hv⟩ := (matchLoop_eq_none_iff parseFloatOk _ _ 0 "where").1 hl
          exact absurd hv (hs r hr hop)
        | some w => exact ⟨q ++ " " ++ w, rfl⟩
  · intro rs hbad
    have hl := (matchLoop_eq_none_iff parseFloatOk rs.length rs 0 "where").2 hbad
    have hlen : (rs.length == 0) = false := by
      obtain ⟨r, hr, _⟩ := hbad
      cases rs with
      | nil => exact absurd hr (List.not_mem_nil r)
      | cons x xs => rfl
    simp only [addMatchFilter, labels.Selector.Requirements, hlen, Bool.not_true,
      Bool.or_self, Bool.false_eq_true, if_false, hl]

theorem addMatchFilter_total_witness :
    (∀ s, some (labels.Selector.internalSelector
          [⟨"app", selection.Equals, ["api"]⟩, ⟨"tier", "regex", []⟩,
            ⟨"zone", selection.Exists, []⟩]) = some s →
        ∀ r ∈ s.Requirements.1,
          r.operator ∈ [selection.Equals, selection.DoubleEquals, selection.NotEquals,
            selection.GreaterThan, selection.LessThan] → r.strValues ≠ [])
      ∧ (∃ out, addMatchFilter strconv.ParseFloatOk "SELECT x FROM y"
          (some (labels.Selector.internalSelector
            [⟨"app", selection.Equals, ["api"]⟩, ⟨"tier", "regex", []⟩,
              ⟨"zone", selection.Exists, []⟩])) = some out)
      ∧ addMatchFilter strconv.ParseFloatOk "SELECT x FROM y"
          (some (labels.Selector.internalSelector [⟨"app", selection.Equals, []⟩])) = none := by
  have hyp : ∀ s, some (labels.Selector.internalSelector
          [⟨"app", selection.Equals, ["api"]⟩, ⟨"tier", "regex", []⟩,
            ⟨"zone", selection.Exists, []⟩]) = some s →
        ∀ r ∈ s.Requirements.1,
          r.operator ∈ [selection.Equals, selection.DoubleEquals, selection.NotEquals,
            selection.GreaterThan, selection.LessThan] → r.strValues ≠ [] := by
    intro s hs
    cases hs
    decide
  have hthm := addMatchFilter_total strconv.ParseFloatOk "SELECT x FROM y"
    (some (labels.Selector.internalSelector
      [⟨"app", selection.Equals, ["api"]⟩, ⟨"tier", "regex", []⟩,
        ⟨"zone", selection.Exists, []⟩])) hyp
  exact ⟨hyp, hthm.1, hthm.2 [⟨"app", selection.Equals, []⟩]
    ⟨⟨"app", selection.Equals, []⟩, by decide, by decide, rfl⟩⟩

/-- C17. Each augmentation only appends: whenever a chain of `addLimit`, `addClusterFilter`
and `addMatchFilter` calls returns, the text it returns starts with the query the chain was
applied to; so does the result of each single call. -/
theorem applyChain_extends (caseTable : Char → Char) (parseFloatOk : String → Nat → Bool)
    (ops : List Augmentation) (q out : Query)
    (h : applyChain caseTable parseFloatOk ops q = some out) :
    q.data <+: out.data
      ∧ q.data <+: (addLimit caseTable q).data
      ∧ (∀ c enabled, q.data <+: (addClusterFilter q c enabled).data)
      ∧ (∀ sel o, addMatchFilter parseFloatOk q sel = some o → q.data <+: o.data) := by
  refine ⟨?_, addLimit_extends caseTable q, addClusterFilter_extends q,
    fun sel o ho => addMatchFilter_extends parseFloatOk q o sel ho⟩
  induction ops generalizing q with
  | nil =>
    simp only [applyChain, Option.some.injEq] at h
    rw [h]
  | cons op rest ih =>
    cases op with
    | limit =>
      rw [applyChain] at h
      exact (addLimit_extends caseTable q).trans (ih _ h)
    | clusterFilter c enabled =>
      rw [applyChain] at h
      exact (addClusterFilter_extends q c enabled).trans (ih _ h)
    | matchFilter sel =>
      rw [applyChain] at h
      cases hm : addMatchFilter parseFloatOk q sel with
      | none => rw [hm] at h; exact nomatch h
      | some q1 =>
        rw [hm] at h
        exact (addMatchFilter_extends parseFloatOk q q1 sel hm).trans (ih _ h)

theorem applyChain_extends_witness :
    applyChain id strconv.ParseFloatOk
        [Augmentation.matchFilter
            (some (labels.Selector.internalSelector [⟨"app", selection.In, ["b", "7"]⟩])),
          Augmentation.clusterFilter "prod-1" true, Augmentation.limit]
        "SELECT x FROM y"
        = some "SELECT x FROM y where app IN (7, 'b') where clusterName='prod-1' limit 1"
      ∧ "SELECT x FROM y".data
          <+: "SELECT x FROM y where app IN (7, 'b') where clusterName='prod-1' limit 1".data :=
  ⟨by decide,
    (applyChain_extends id strconv.ParseFloatOk
      [Augmentation.matchFilter
          (some (labels.Selector.internalSelector [⟨"app", selection.In, ["b", "7"]⟩])),
        Augmentation.clusterFilter "prod-1" true, Augmentation.limit]
      "SELECT x FROM y"
      "SELECT x FROM y where app IN (7, 'b') where clusterName='prod-1' limit 1"
      (by decide)).1⟩

/-- C18. A requirement whose operator is none of the nine known kinds adds no clause text,
and the `where` keyword and the ` and` joiner are emitted all the same: alone in the
selector it gives the query followed by a bare ` where`, and followed by `(k, Equals, v)`
it gives ` where and` and then the clause of the second requirement. -/
theorem addMatchFilter_unknown_operator (parseFloatOk : String → Nat → Bool) (q : Query)
    (k0 : String) (op : selection.Operator) (vs0 : List String) (k v : String)
    (hop : op ∉ selection.known) :
    (∀ w, matchSwitch parseFloatOk w ⟨k0, op, vs0⟩ = some w)
      ∧ addMatchFilter parseFloatOk q
          (some (labels.Selector.internalSelector [⟨k0, op, vs0⟩])) = some (q ++ " where")
      ∧ addMatchFilter parseFloatOk q
          (some (labels.Selector.internalSelector
            [⟨k0, op, vs0⟩, ⟨k, selection.Equals, [v]⟩]))
          = some (q ++ " where and" ++ " " ++ k ++ " = " ++
              (if parseFloatOk v 64 = true then v else "'" ++ v ++ "'")) := by
  have hsw : ∀ w, matchSwitch parseFloatOk w ⟨k0, op, vs0⟩ = some w :=
    fun w => matchSwitch_unknown parseFloatOk w ⟨k0, op, vs0⟩ hop
  have heq : ∀ w, matchSwitch parseFloatOk w ⟨k, selection.Equals, [v]⟩
      = some (buildSimpleCondition parseFloatOk w k selection.Equals v) := by
    intro w
    unfold matchSwitch
    simp only [labels.Requirement.Key, labels.Requirement.Operator]
    rw [if_pos (by decide)]
    rfl
  refine ⟨hsw, ?_, ?_⟩
  · simp only [addMatchFilter, labels.Selector.Requirements, matchLoop, hsw]
    show some (q ++ " " ++ "where") = some (q ++ " where")
    rw [String.append_assoc]
    rfl
  · simp only [addMatchFilter, labels.Selector.Requirements, matchLoop, hsw, heq,
      buildSimpleCondition_eq]
    show some (q ++ " " ++ ("where" ++ " and" ++ " " ++ k ++ " " ++ "=" ++ " " ++
      (if parseFloatOk v 64 = true then v else "'" ++ v ++ "'"))) = _
    congr 1
    apply String.ext
    simp only [String.data_append, List.append_assoc]
    rfl

theorem addMatchFilter_unknown_operator_witness :
    "regex" ∉ selection.known
      ∧ addMatchFilter strconv.ParseFloatOk "SELECT x FROM y"
          (some (labels.Selector.internalSelector [⟨"tier", "regex", ["d.*"]⟩]))
          = some ("SELECT x FROM y" ++ " where")
      ∧ addMatchFilter strconv.ParseFloatOk "SELECT x FROM y"
          (some (labels.Selector.internalSelector
            [⟨"tier", "regex", ["d.*"]⟩, ⟨"app", selection.Equals, ["api"]⟩]))
          = some "SELECT x FROM y where and app = 'api'" :=
  ⟨by decide,
    (addMatchFilter_unknown_operator strconv.ParseFloatOk "SELECT x FROM y" "tier" "regex"
      ["d.*"] "app" "api" (by decide)).2.1,
    by decide⟩

/-- C15, as stated, fails: on `SELECT x FROM y` the call order `addLimit`, `addClusterFilter`
puts ` limit 1` before the `where` fragment and the opposite order puts it after. -/
theorem addLimit_addClusterFilter_order_counterexample :
    ¬ ∀ (caseTable : Char → Char) (q : Query) (c : String),
        addClusterFilter (addLimit caseTable q) c true
          = addLimit caseTable (addClusterFilter q c true) := by
  intro h
  have h1 := h id "SELECT x FROM y" "prod-1"
  revert h1
  decide

/-- C15, amended. `addLimit` and `addClusterFilter(c, true)` give the same text in both call
orders exactly when the lower-cased query already contains the token ` limit `, in which
case `addLimit` changes nothing in either order. -/
theorem addLimit_addClusterFilter_commute_iff (caseTable : Char → Char) (q : Query)
    (c : String) :
    addClusterFilter (addLimit caseTable q) c true
        = addLimit caseTable (addClusterFilter q c true)
      ↔ " limit ".data <:+: (stringsToLower caseTable q).data := by
  have hW : addClusterFilter q c true = q ++ (" where clusterName='" ++ c ++ "'") := by
    show q ++ " where clusterName='" ++ c ++ "'" = _
    simp only [String.append_assoc]
  constructor
  · intro heq
    by_contra hno
    have hq : addLimit caseTable q = q ++ " limit 1" := by
      unfold addLimit
      rw [if_neg (fun hc => hno ((stringsContains_iff _ limitClause).1 hc))]
    have hL : addClusterFilter (addLimit caseTable q) c true
        = q ++ (" limit 1" ++ (" where clusterName='" ++ c ++ "'")) := by
      rw [hq]
      show q ++ " limit 1" ++ " where clusterName='" ++ c ++ "'" = _
      simp only [String.append_assoc]
    rw [hL, hW] at heq
    unfold addLimit at heq
    split_ifs at heq
    · have h2 := congrArg String.data heq
      simp only [String.data_append, List.append_cancel_left_eq] at h2
      exact absurd (congrArg List.length h2) (by simp [List.length_append]; omega)
    · have h2 := congrArg String.data heq
      simp only [String.data_append, List.append_assoc, List.append_cancel_left_eq] at h2
      have h3 : (" limit 1".data ++ (" where clusterName='".data ++ (c.data ++ "'".data)))[1]?
          = (" where clusterName='".data ++ (c.data ++ ("'".data ++ " limit 1".data)))[1]? := by
        rw [h2]
      have h4 : (some 'l' : Option Char) = some 'w' := h3
      exact absurd h4 (by decide)
  · intro hin
    have hq : addLimit caseTable q = q := by
      unfold addLimit
      rw [if_pos ((stringsContains_iff _ limitClause).2 hin)]
    have hin2 : " limit ".data <:+: (stringsToLower caseTable (addClusterFilter q c true)).data := by
      rw [hW, stringsToLower_append]
      exact hin.trans ⟨[], (stringsToLower caseTable (" where clusterName='" ++ c ++ "'")).data,
        by simp only [String.data_append, List.nil_append]⟩
    rw [hq]
    unfold addLimit
    rw [if_pos ((stringsContains_iff _ limitClause).2 hin2)]

/-- C19. The words `nan`, `inf` and `infinity`, in any letter case, parse as 64-bit floats, so
`buildSimpleCondition` emits such a value bare; the text `1e999` is out of range, fails the
parse and is emitted between single quotes. -/
theorem buildSimpleCondition_nonfinite (w k : String) (op : selection.Operator) (v : String)
    (hv : stringsToLower (fun r => r) v = "nan" ∨ stringsToLower (fun r => r) v = "inf"
      ∨ stringsToLower (fun r => r) v = "infinity") :
    strconv.ParseFloatOk v 64 = true
      ∧ buildSimpleCondition strconv.ParseFloatOk w k op v
          = w ++ " " ++ k ++ " " ++ transformOperator op ++ " " ++ v
      ∧ strconv.ParseFloatOk "1e999" 64 = false
      ∧ buildSimpleCondition strconv.ParseFloatOk w k op "1e999"
          = w ++ " " ++ k ++ " " ++ transformOperator op ++ " " ++ "'1e999'" := by
  have hok : strconv.ParseFloatOk v 64 = true := by
    rcases hv with h | h | h
    · exact parseFloatOk_three_letters v (Or.inl (congrArg String.data h))
    · exact parseFloatOk_three_letters v (Or.inr (congrArg String.data h))
    · exact parseFloatOk_infinity v (congrArg String.data h)
  refine ⟨hok, ?_, parseFloatOk_1e999, ?_⟩
  · rw [buildSimpleCondition_eq, if_pos hok]
  · rw [buildSimpleCondition_eq, if_neg (by rw [parseFloatOk_1e999]; exact Bool.false_ne_true)]
    rfl

theorem buildSimpleCondition_nonfinite_witness :
    (stringsToLower (fun r => r) "NaN" = "nan" ∨ stringsToLower (fun r => r) "NaN" = "inf"
        ∨ stringsToLower (fun r => r) "NaN" = "infinity")
      ∧ buildSimpleCondition strconv.ParseFloatOk "where" "load" selection.GreaterThan "NaN"
          = "where load > NaN"
      ∧ buildSimpleCondition strconv.ParseFloatOk "where" "load" selection.Equals "Infinity"
          = "where load = Infinity"
      ∧ buildSimpleCondition strconv.ParseFloatOk "where" "load" selection.Equals "1e999"
          = "where load = '1e999'" := by
  have h := buildSimpleCondition_nonfinite "where" "load" selection.GreaterThan "NaN"
    (Or.inl (by decide))
  have h2 := buildSimpleCondition_nonfinite "where" "load" selection.Equals "Infinity"
    (Or.inr (Or.inr (by decide)))
  refine ⟨Or.inl (by decide), ?_, ?_, ?_⟩
  · rw [h.2.1]; decide
  · rw [h2.2.1]; decide
  · rw [h2.2.2.2]; decide

/-- C13, as stated, fails: with the cluster filter enabled and the selector
`app Equals api`, the pipeline appends the keyword `where` twice, and its result
`... limit 1 where clusterName='prod-1' where app = 'api'` is not of the single-statement
shape. -/
theorem pipeline_single_statement_counterexample :
    ¬ ∀ (caseTable : Char → Char) (parseFloatOk : String → Nat → Bool) (base : Query)
        (c : String) (enabled : Bool) (sel : Option labels.Selector) (out : Query),
        pipeline caseTable parseFloatOk base c enabled sel = some out →
          singleStatement base out := by
  intro h
  obtain ⟨lim, conds, hlim, hcond, hout⟩ :=
    h id strconv.ParseFloatOk "SELECT average(cpu) FROM Metric" "prod-1" true
      (some (labels.Selector.internalSelector [⟨"app", selection.Equals, ["api"]⟩]))
      "SELECT average(cpu) FROM Metric limit 1 where clusterName='prod-1' where app = 'api'"
      (by decide)
  have hd := congrArg String.data hout
  have hsplit : ("SELECT average(cpu) FROM Metric limit 1 where clusterName='prod-1' where app = 'api'").data
      = "SELECT average(cpu) FROM Metric".data
        ++ " limit 1 where clusterName='prod-1' where app = 'api'".data := by decide
  rw [hsplit] at hd
  simp only [String.data_append, List.append_assoc, List.append_cancel_left_eq] at hd
  by_cases hc : conds = []
  · rw [if_pos hc] at hd
    rcases hlim with rfl | rfl
    · exact absurd hd (by decide)
    · exact absurd hd (by decide)
  · rw [if_neg hc] at hd
    rcases hlim with rfl | rfl
    · have h1 := congrArg (fun l : List Char => l[1]?) hd
      have h2 : (some 'l' : Option Char) = some 'w' := h1
      exact absurd h2 (by decide)
    · have h1 : " clusterName='prod-1' where app = 'api'".data
          = (" and".intercalate conds).data := by
        have h2 : " limit 1".data ++ (" where".data
              ++ " clusterName='prod-1' where app = 'api'".data)
            = " limit 1".data ++ (" where".data ++ (" and".intercalate conds).data) := hd
        exact List.append_cancel_left (List.append_cancel_left h2)
      match conds, hc, hcond, h1 with
      | [cond], _, hcond, h1 =>
        have h3 : (" and".intercalate [cond]) = cond := rfl
        rw [h3] at h1
        refine hcond cond (List.mem_singleton.2 rfl) ?_
        rw [← h1]
        decide
      | c1 :: c2 :: rest, _, _, h1 =>
        rw [intercalate_cons_cons] at h1
        have h3 : " and".data <:+: " clusterName='prod-1' where app = 'api'".data := by
          rw [h1]
          exact ⟨c1.data, (" and".intercalate (c2 :: rest)).data,
            by simp only [String.data_append, List.append_assoc]⟩
        exact absurd h3 (by decide)

/-- C13, amended. The pipeline returns the base, then ` limit 1` unless the lower-cased base
already holds ` limit `, then ` where clusterName='c'` when the cluster filter is enabled,
then, for a selector with requirements, a fragment ` where` followed by their clauses joined
with ` and`: each of the two filters brings its own `where` keyword, so the text holds up to
two `where` fragments.  With the nil selector the last fragment is absent. -/
theorem pipeline_shape (caseTable : Char → Char) (parseFloatOk : String → Nat → Bool)
    (base : Query) (c : String) (enabled : Bool) (rs : List labels.Requirement)
    (hvalue : ∀ r ∈ rs, r.operator ∈ [selection.Equals, selection.DoubleEquals,
      selection.NotEquals, selection.GreaterThan, selection.LessThan] → r.strValues ≠ []) :
    ∃ cs : List String,
      List.Forall₂ (fun r cl => matchSwitch parseFloatOk "" r = some cl) rs cs
      ∧ pipeline caseTable parseFloatOk base c enabled
          (some (labels.Selector.internalSelector rs))
          = some (base
              ++ (if " limit ".data <:+: (stringsToLower caseTable base).data then ""
                  else " limit 1")
              ++ (if enabled = true then " where clusterName='" ++ c ++ "'" else "")
              ++ (if rs = [] then "" else " where" ++ " and".intercalate cs))
      ∧ pipeline caseTable parseFloatOk base c enabled none
          = some (base
              ++ (if " limit ".data <:+: (stringsToLower caseTable base).data then ""
                  else " limit 1")
              ++ (if enabled = true then " where clusterName='" ++ c ++ "'" else "")) := by
  have hsw : ∀ r ∈ rs, ∃ cl, matchSwitch parseFloatOk "" r = some cl := by
    intro r hr
    cases hm : matchSwitch parseFloatOk "" r with
    | none =>
      obtain ⟨hop, hv⟩ := (matchSwitch_eq_none_iff parseFloatOk "" r).1 hm
      exact absurd hv (hvalue r hr hop)
    | some cl => exact ⟨cl, rfl⟩
  have hq : addClusterFilter (addLimit caseTable base) c enabled
      = base
          ++ (if " limit ".data <:+: (stringsToLower caseTable base).data then "" else " limit 1")
          ++ (if enabled = true then " where clusterName='" ++ c ++ "'" else "") := by
    have hl : addLimit caseTable base = base
        ++ (if " limit ".data <:+: (stringsToLower caseTable base).data then ""
            else " limit 1") := by
      unfold addLimit
      by_cases h : stringsContains (stringsToLower caseTable base) limitClause = true
      · have h1 : " limit ".data <:+: (stringsToLower caseTable base).data :=
          (stringsContains_iff _ limitClause).1 h
        rw [if_pos h, if_pos h1, String.append_empty]
      · have h1 : ¬ " limit ".data <:+: (stringsToLower caseTable base).data :=
          fun h2 => h ((stringsContains_iff _ limitClause).2 h2)
        rw [if_neg h, if_neg h1]
    rw [hl]
    unfold addClusterFilter
    cases enabled
    · simp only [Bool.not_false, if_true, Bool.false_eq_true, if_false, String.append_empty]
    · simp only [Bool.not_true, Bool.false_eq_true, if_false, if_true, String.append_assoc]
  refine ⟨rs.map (fun r => (matchSwitch parseFloatOk "" r).getD ""), ?_, ?_, ?_⟩
  · rw [List.forall₂_map_right_iff, List.forall₂_same]
    intro r hr
    obtain ⟨cl, hcl⟩ := hsw r hr
    rw [hcl]
    rfl
  · unfold pipeline
    rw [hq]
    by_cases hrs : rs = []
    · subst hrs
      simp only [if_true, String.append_empty]
      rfl
    · have hloop := matchLoop_eq parseFloatOk rs.length rs 0 "where" (Nat.zero_add _) hsw
      have hlen : (rs.length == 0) = false := by
        cases rs with
        | nil => exact absurd rfl hrs
        | cons r rest => rfl
      simp only [addMatchFilter, labels.Selector.Requirements, hlen, Bool.not_true,
        Bool.or_self, Bool.false_eq_true, if_false, hloop, if_neg hrs]
      congr 1
      apply String.ext
      simp only [String.data_append, List.append_assoc]
      rfl
  · unfold pipeline
    rw [hq]
    rfl

theorem pipeline_shape_witness :
    (∀ r ∈ ([⟨"app", selection.Equals, ["api"]⟩, ⟨"tier", selection.In, ["db", "cache"]⟩] :
          List labels.Requirement),
        r.operator ∈ [selection.Equals, selection.DoubleEquals, selection.NotEquals,
          selection.GreaterThan, selection.LessThan] → r.strValues ≠ [])
      ∧ (∃ cs : List String,
          List.Forall₂ (fun r cl => matchSwitch strconv.ParseFloatOk "" r = some cl)
            [⟨"app", selection.Equals, ["api"]⟩, ⟨"tier", selection.In, ["db", "cache"]⟩] cs
          ∧ pipeline id strconv.ParseFloatOk "SELECT average(cpu) FROM Metric" "prod-1" true
              (some (labels.Selector.internalSelector
                [⟨"app", selection.Equals, ["api"]⟩, ⟨"tier", selection.In, ["db", "cache"]⟩]))
              = some ("SELECT average(cpu) FROM Metric"
                  ++ (if " limit ".data
                        <:+: (stringsToLower id "SELECT average(cpu) FROM Metric").data then ""
                      else " limit 1")
                  ++ (if true = true then " where clusterName='" ++ "prod-1" ++ "'" else "")
                  ++ (if ([⟨"app", selection.Equals, ["api"]⟩,
                          ⟨"tier", selection.In, ["db", "cache"]⟩] :
                        List labels.Requirement) = [] then ""
                      else " where" ++ " and".intercalate cs))
          ∧ pipeline id strconv.ParseFloatOk "SELECT average(cpu) FROM Metric" "prod-1" true none
              = some ("SELECT average(cpu) FROM Metric"
                  ++ (if " limit ".data
                        <:+: (stringsToLower id "SELECT average(cpu) FROM Metric").data then ""
                      else " limit 1")
                  ++ (if true = true then " where clusterName='" ++ "prod-1" ++ "'" else "")))
      ∧ pipeline id strconv.ParseFloatOk "SELECT average(cpu) FROM Metric" "prod-1" true
          (some (labels.Selector.internalSelector
            [⟨"app", selection.Equals, ["api"]⟩, ⟨"tier", selection.In, ["db", "cache"]⟩]))
          = some ("SELECT average(cpu) FROM Metric limit 1 where clusterName='prod-1'"
              ++ " where app = 'api' and tier IN ('cache', 'db')") :=
  ⟨by decide,
    pipeline_shape id strconv.ParseFloatOk "SELECT average(cpu) FROM Metric" "prod-1" true
      [⟨"app", selection.Equals, ["api"]⟩, ⟨"tier", selection.In, ["db", "cache"]⟩]
      (by decide),
    by decide⟩

/-- C16, as stated, fails: the two spellings of equality share the token `=`, so the
selectors `app Equals api` and `app DoubleEquals api`, both within the data model, are
rendered to the same text. -/
theorem addMatchFilter_lossless_counterexample :
    ¬ ∀ (parseFloatOk : String → Nat → Bool) (q : Query) (rs1 rs2 : List labels.Requirement),
        (∀ r ∈ rs1, dataModel r) → (∀ r ∈ rs2, dataModel r) → rs1 ≠ rs2 →
        addMatchFilter parseFloatOk q (some (labels.Selector.internalSelector rs1))
          ≠ addMatchFilter parseFloatOk q (some (labels.Selector.internalSelector rs2)) := by
  intro h
  exact h strconv.ParseFloatOk "SELECT x FROM y" [⟨"app", selection.Equals, ["api"]⟩]
    [⟨"app", selection.DoubleEquals, ["api"]⟩] (by decide) (by decide) (by decide) (by decide)

/-- C16, amended. For two selectors within the data model whose keys hold no space and whose
values hold no space and no single quote, `addMatchFilter` returns the same text exactly when
the requirement lists agree, position by position, in the key, in the operator token
(`Equals` and `DoubleEquals` share `=`) and in the set of values (the values of an existence
operator are not rendered): selectors that differ in one of these are rendered to different
texts. -/
theorem addMatchFilter_lossless (parseFloatOk : String → Nat → Bool) (q : Query)
    (rs1 rs2 : List labels.Requirement)
    (h1 : ∀ r ∈ rs1, dataModel r ∧ labelSyntax r)
    (h2 : ∀ r ∈ rs2, dataModel r ∧ labelSyntax r) :
    addMatchFilter parseFloatOk q (some (labels.Selector.internalSelector rs1))
        = addMatchFilter parseFloatOk q (some (labels.Selector.internalSelector rs2))
      ↔ rs1.map canonical = rs2.map canonical := by
  have hd1 : ∀ r ∈ rs1, dataModel r := fun r hr => (h1 r hr).1
  have hd2 : ∀ r ∈ rs2, dataModel r := fun r hr => (h2 r hr).1
  have hs1 : ∀ r ∈ rs1, labelSyntax r := fun r hr => (h1 r hr).2
  have hs2 : ∀ r ∈ rs2, labelSyntax r := fun r hr => (h2 r hr).2
  rw [addMatchFilter_words parseFloatOk q rs1 hd1, addMatchFilter_words parseFloatOk q rs2 hd2]
  have hmk : ∀ a b : List Char, (some (String.mk (q.data ++ a)) = some (String.mk (q.data ++ b)))
      ↔ a = b := by
    intro a b
    constructor
    · intro h
      have h3 : (String.mk (q.data ++ a)).data = (String.mk (q.data ++ b)).data :=
        congrArg String.data (Option.some.inj h)
      exact List.append_cancel_left h3
    · intro h
      rw [h]
  rw [hmk]
  constructor
  · intro h
    by_cases e1 : rs1 = []
    · by_cases e2 : rs2 = []
      · rw [e1, e2]
      · rw [if_pos e1, if_neg e2] at h
        exact absurd (congrArg List.length h) (by simp)
    · by_cases e2 : rs2 = []
      · rw [if_neg e1, if_pos e2] at h
        exact absurd (congrArg List.length h) (by simp)
      · rw [if_neg e1, if_neg e2] at h
        have hw := spaced_injective _ _ (joinedWords_no_space parseFloatOk rs1 hd1 hs1)
          (joinedWords_no_space parseFloatOk rs2 hd2 hs2) (List.append_cancel_left h)
        refine joinedWords_injective parseFloatOk _ _ ?_ ?_ hw
        · intro c hc
          obtain ⟨r, hr, rfl⟩ := List.mem_map.1 hc
          exact canonical_valid r (hd1 r hr) (hs1 r hr)
        · intro c hc
          obtain ⟨r, hr, rfl⟩ := List.mem_map.1 hc
          exact canonical_valid r (hd2 r hr) (hs2 r hr)
  · intro h
    have he : rs1 = [] ↔ rs2 = [] := by
      constructor
      · intro e
        have h3 : rs2.map canonical = [] := by rw [← h, e]; rfl
        exact List.map_eq_nil_iff.1 h3
      · intro e
        have h3 : rs1.map canonical = [] := by rw [h, e]; rfl
        exact List.map_eq_nil_iff.1 h3
    by_cases e1 : rs1 = []
    · rw [if_pos e1, if_pos (he.1 e1)]
    · rw [if_neg e1, if_neg (fun e2 => e1 (he.2 e2)), h]

theorem addMatchFilter_lossless_witness :
    (∀ r ∈ ([⟨"app", selection.In, ["b", "a"]⟩, ⟨"tier", selection.Equals, ["db"]⟩] :
        List labels.Requirement), dataModel r ∧ labelSyntax r)
      ∧ (∀ r ∈ ([⟨"app", selection.In, ["a", "c"]⟩, ⟨"tier", selection.DoubleEquals, ["db"]⟩] :
        List labels.Requirement), dataModel r ∧ labelSyntax r)
      ∧ addMatchFilter strconv.ParseFloatOk "SELECT x FROM y"
          (some (labels.Selector.internalSelector
            [⟨"app", selection.In, ["b", "a"]⟩, ⟨"tier", selection.Equals, ["db"]⟩]))
        ≠ addMatchFilter strconv.ParseFloatOk "SELECT x FROM y"
          (some (labels.Selector.internalSelector
            [⟨"app", selection.In, ["a", "c"]⟩, ⟨"tier", selection.DoubleEquals, ["db"]⟩])) := by
  refine ⟨by decide, by decide, ?_⟩
  intro h
  have hc := (addMatchFilter_lossless strconv.ParseFloatOk "SELECT x FROM y"
    [⟨"app", selection.In, ["b", "a"]⟩, ⟨"tier", selection.Equals, ["db"]⟩]
    [⟨"app", selection.In, ["a", "c"]⟩, ⟨"tier", selection.DoubleEquals, ["db"]⟩]
    (by decide) (by decide)).1 h
  revert hc
  decide

end NewRelic
